import Mathlib

/-
Verification development for the Collector Dashboard data-quality core
(src/utils/dataQuality.ts, src/utils/normalization.ts, src/utils/calculations.ts).

The TypeScript sources are shallowly embedded: JavaScript strings are Lean
strings (lists of characters), JavaScript numbers are modelled as rationals
(the code under verification never relies on float rounding), JavaScript Date
objects are modelled as an optional count of milliseconds since the Unix epoch
in UTC (none standing for an Invalid Date), and the handful of platform
builtins the code calls (String.prototype.trim, the specific regular
expressions appearing in the source, JSON.parse, parseFloat, Date parsing)
are modelled by explicit executable functions, each marked with a comment
naming the builtin it models.
-/

namespace Collector

/-! ### Model of JavaScript characters and strings -/

/-- Whitespace class of JavaScript (regex class backslash-s and
String.prototype.trim), restricted to the ASCII range of the model. -/
def jsIsWs (c : Char) : Bool :=
  c = ' ' || c = '\t' || c = '\n' || c = '\x0d' || c = '\x0b' || c = '\x0c'

/-- Word-character class of JavaScript regexes (backslash-w): ASCII letters,
digits and underscore. -/
def jsIsWord (c : Char) : Bool :=
  (('a' ≤ c && c ≤ 'z') || ('A' ≤ c && c ≤ 'Z') || ('0' ≤ c && c ≤ '9') || c = '_')

/-- Model of String.prototype.toLowerCase for the ASCII range. -/
def jsLowerChar (c : Char) : Char :=
  if 'A' ≤ c && c ≤ 'Z' then Char.ofNat (c.toNat + 32) else c

/-- Model of String.prototype.toUpperCase for the ASCII range. -/
def jsUpperChar (c : Char) : Char :=
  if 'a' ≤ c && c ≤ 'z' then Char.ofNat (c.toNat - 32) else c

def jsLowerL (l : List Char) : List Char := l.map jsLowerChar

/-- Model of String.prototype.trim (both ends). -/
def jsTrimL (l : List Char) : List Char :=
  ((l.dropWhile jsIsWs).reverse.dropWhile jsIsWs).reverse

def jsTrim (s : String) : String := ⟨jsTrimL s.data⟩

def jsLower (s : String) : String := ⟨jsLowerL s.data⟩

/-- Decide whether the pattern list occurs as a contiguous run of the text,
comparing characters case-insensitively after jsLowerChar. -/
def infixOfCI (pat : List Char) (text : List Char) : Bool :=
  match text with
  | [] => pat.isEmpty
  | _ :: rest =>
      (pat.map jsLowerChar).isPrefixOf (text.map jsLowerChar) || infixOfCI pat rest

/-- Substring containment with exact characters (String.prototype.includes). -/
def infixOfL (pat : List Char) (text : List Char) : Bool :=
  match text with
  | [] => pat.isEmpty
  | _ :: rest => pat.isPrefixOf text || infixOfL pat rest

/-- Model of String.prototype.includes. -/
def jsIncludes (s : String) (pat : String) : Bool := infixOfL pat.data s.data

/-- Index of the first occurrence of the pattern, model of
String.prototype.indexOf (returning none for -1). -/
def jsIndexOfL (pat : List Char) (text : List Char) : Option Nat :=
  match text with
  | [] => if pat.isEmpty then some 0 else none
  | _ :: rest =>
      if pat.isPrefixOf text then some 0
      else (jsIndexOfL pat rest).map (· + 1)

/-- Collapse every maximal run of JavaScript whitespace to one space: model of
replace(regex backslash-s-plus, one space) applied globally. The boolean
records whether the previous character was part of a whitespace run. -/
def collapseWsGo : Bool → List Char → List Char
  | _, [] => []
  | inRun, c :: rest =>
      if jsIsWs c then
        if inRun then collapseWsGo true rest else ' ' :: collapseWsGo true rest
      else c :: collapseWsGo false rest

def collapseWsL (l : List Char) : List Char := collapseWsGo false l

/-- Model of String.prototype.substring for indices already clamped. -/
def jsSubstringL (l : List Char) (a b : Nat) : List Char := (l.take b).drop a

/-- Split on maximal runs of the characters selected by the predicate,
dropping empty pieces: model of split on a regex character class, followed by
a nonempty filter. -/
def splitDropL (p : Char → Bool) : List Char → List (List Char)
  | [] => []
  | c :: rest =>
      if p c then splitDropL p rest
      else
        match splitDropL p rest with
        | [] => [[c]]
        | w :: ws =>
            match rest with
            | [] => [[c]]
            | r :: _ => if p r then [c] :: w :: ws else (c :: w) :: ws

/-- Model of String.prototype.split with a single-space separator string
(not a regex): pieces may be empty. -/
def splitSpaceExact : List Char → List (List Char)
  | [] => [[]]
  | c :: rest =>
      match splitSpaceExact rest with
      | [] => [[c]]
      | w :: ws => if c = ' ' then [] :: w :: ws else (c :: w) :: ws

def natDigits (n : Nat) : List Char :=
  (Nat.toDigits 10 n)

/-- Decimal rendering of a natural number. -/
def natToStr (n : Nat) : String := ⟨natDigits n⟩

/-- Decimal rendering of an integer. -/
def intToStr (i : Int) : String :=
  if i < 0 then "-" ++ natToStr i.natAbs else natToStr i.natAbs

/-- Left-pad a decimal rendering with zeros to the given width. -/
def padZero (width : Nat) (n : Nat) : String :=
  let d := natDigits n
  ⟨List.replicate (width - d.length) '0' ++ d⟩

/-! ### Model of the proleptic-Gregorian civil calendar used by JavaScript
Date objects (Howard Hinnant's algorithm, as in ECMA MakeDay/TimeClip,
restricted to UTC). -/

def daysFromCivil (y m d : Int) : Int :=
  let y1 : Int := if m ≤ 2 then y - 1 else y
  let era : Int := (if 0 ≤ y1 then y1 else y1 - 399) / 400
  let yoe : Int := y1 - era * 400
  let mp : Int := if m > 2 then m - 3 else m + 9
  let doy : Int := (153 * mp + 2) / 5 + d - 1
  let doe : Int := yoe * 365 + yoe / 4 - yoe / 100 + doy
  era * 146097 + doe - 719468

def civilFromDays (z0 : Int) : Int × Int × Int :=
  let z : Int := z0 + 719468
  let era : Int := (if 0 ≤ z then z else z - 146096) / 146097
  let doe : Int := z - era * 146097
  let yoe : Int := (doe - doe / 1460 + doe / 36524 - doe / 146096) / 365
  let y : Int := yoe + era * 400
  let doy : Int := doe - (365 * yoe + yoe / 4 - yoe / 100)
  let mp : Int := (5 * doy + 2) / 153
  let d : Int := doy - (153 * mp + 2) / 5 + 1
  let m : Int := if mp < 10 then mp + 3 else mp - 9
  (if m ≤ 2 then y + 1 else y, m, d)

def msPerDay : Int := 86400000

/-- Day number (UTC) of an epoch-millisecond timestamp. -/
def dayOfMs (ms : Int) : Int := Int.fdiv ms msPerDay

/-- Model of Date.prototype.toISOString truncated to its date part, as
produced by toISOString().split(T)[0] in the source. -/
def isoDateOfMs (ms : Int) : String :=
  let c := civilFromDays (dayOfMs ms)
  padZero 4 c.1.natAbs ++ "-" ++ padZero 2 c.2.1.natAbs ++ "-" ++ padZero 2 c.2.2.natAbs

def isLeap (y : Int) : Bool :=
  (y % 4 = 0 && y % 100 ≠ 0) || y % 400 = 0

def daysInMonth (y m : Int) : Int :=
  if m = 2 then (if isLeap y then 29 else 28)
  else if m = 4 || m = 6 || m = 9 || m = 11 then 30
  else 31

def isDigit (c : Char) : Bool := '0' ≤ c && c ≤ '9'

def digitVal (c : Char) : Nat := c.toNat - '0'.toNat

def digitsToNat (l : List Char) : Nat :=
  l.foldl (fun acc c => acc * 10 + digitVal c) 0

/-- Model of the platform Date parser (new Date(string)), restricted to the
strict calendar-date form YYYY-MM-DD of the ECMA date-time string format,
interpreted at midnight UTC; every other shape yields an Invalid Date
(none). The repository only ever feeds ISO calendar dates to it. -/
def jsParseDate (s : String) : Option Int :=
  match s.data with
  | [y1, y2, y3, y4, h1, m1, m2, h2, d1, d2] =>
      if isDigit y1 && isDigit y2 && isDigit y3 && isDigit y4 &&
         h1 = '-' && isDigit m1 && isDigit m2 && h2 = '-' && isDigit d1 && isDigit d2 then
        let y : Int := digitsToNat [y1, y2, y3, y4]
        let m : Int := digitsToNat [m1, m2]
        let d : Int := digitsToNat [d1, d2]
        if 1 ≤ m && m ≤ 12 && 1 ≤ d && d ≤ daysInMonth y m then
          some (daysFromCivil y m d * msPerDay)
        else none
      else none
  | _ => none

/-- Model of Date.prototype.setFullYear(getFullYear() - 10) applied to a UTC
timestamp: move the calendar year back ten years keeping month, day and
time-of-day (day overflow spills into the next month exactly as MakeDay
does). -/
def msMinusTenYears (now : Int) : Int :=
  let day := dayOfMs now
  let msod := now - day * msPerDay
  let c := civilFromDays day
  daysFromCivil (c.1 - 10) c.2.1 c.2.2 * msPerDay + msod

/-! ### Model of JavaScript runtime values

A loosely-typed spreadsheet cell / record field, as the TypeScript code sees
it at runtime (the ComplaintRow interface carries an index signature of
unknown values). Dates carry an optional UTC epoch-millisecond timestamp,
none being an Invalid Date. -/

inductive JsValue where
  | vstr (s : String)
  | vnum (q : ℚ)
  | vbool (b : Bool)
  | vnull
  | vundef
  | vdate (t : Option Int)
  | vobj (fields : List (String × JsValue))
  | varr (items : List JsValue)

open JsValue

/-- Truthiness of a JavaScript value. -/
def truthy : JsValue → Bool
  | vstr s => s ≠ ""
  | vnum q => q ≠ 0
  | vbool b => b
  | vnull => false
  | vundef => false
  | vdate _ => true
  | vobj _ => true
  | varr _ => true

/-- Result of the typeof operator. -/
def typeofName : JsValue → String
  | vstr _ => "string"
  | vnum _ => "number"
  | vbool _ => "boolean"
  | vnull => "object"
  | vundef => "undefined"
  | vdate _ => "object"
  | vobj _ => "object"
  | varr _ => "object"

def isStringV : JsValue → Bool
  | vstr _ => true
  | _ => false

def isDateV : JsValue → Bool
  | vdate _ => true
  | _ => false

def isArrayV : JsValue → Bool
  | varr _ => true
  | _ => false

/-- Short-circuit logical or (a || b). -/
def jsOr (a b : JsValue) : JsValue := if truthy a then a else b

/-- Nullish coalescing (a ?? b). -/
def jsNullish (a b : JsValue) : JsValue :=
  match a with
  | vnull => b
  | vundef => b
  | _ => a

/-! ### Model of JavaScript number formatting and parsing -/

/-- Smallest exponent k that makes the rational an integer when scaled by
10 to the k, searched up to the given bound. -/
def decExponent (q : ℚ) : Nat → Option Nat
  | 0 => if q.den = 1 then some 0 else none
  | n + 1 =>
      match decExponent q n with
      | some k => some k
      | none => if (q * (10 : ℚ) ^ (n + 1)).den = 1 then some (n + 1) else none

/-- Model of Number.prototype.toString for the rationals the pipeline
produces (values parsed from decimal text, hence with a finite decimal
expansion); rationals without one within 30 digits are rendered as a
fraction, a case no repository input reaches. -/
def jsNumToString (q : ℚ) : String :=
  if q.den = 1 then intToStr q.num
  else
    match decExponent q 30 with
    | some k =>
        let scaled : Int := (q * (10 : ℚ) ^ k).num
        let digits := natDigits scaled.natAbs
        let digits := List.replicate (k + 1 - digits.length) '0' ++ digits
        let whole := digits.take (digits.length - k)
        let frac := digits.drop (digits.length - k)
        (if q < 0 then "-" else "") ++ ⟨whole⟩ ++ "." ++ ⟨frac⟩
    | none => intToStr q.num ++ "/" ++ natToStr q.den

/-- Model of the abstract ToString operation on primitive values, as invoked
by String(x) in the source; array stringification is approximated by
comma-joining the rendered elements. -/
def jsToString : JsValue → String
  | vstr s => s
  | vnum q => jsNumToString q
  | vbool b => if b then "true" else "false"
  | vnull => "null"
  | vundef => "undefined"
  | vdate t =>
      match t with
      | some ms => isoDateOfMs ms
      | none => "Invalid Date"
  | vobj _ => "[object Object]"
  | varr items => String.intercalate "," (jsToStringList items)
where
  jsToStringList : List JsValue → List String
    | [] => []
    | v :: vs => jsToString v :: jsToStringList vs

/-- Model of parseFloat restricted to the character set the validator feeds
it (digits, dots and minus signs, the residue of replace(non-[0-9.-], empty)):
an optional leading minus sign, then the longest prefix of the form
digits [ dot digits* ] or dot digits+; none models NaN. -/
def parseFloatModel (l : List Char) : Option ℚ :=
  let core : List Char → Option ℚ := fun l =>
    let intPart := l.takeWhile isDigit
    let rest := l.dropWhile isDigit
    match intPart, rest with
    | [], '.' :: r =>
        let frac := r.takeWhile isDigit
        if frac = [] then none
        else some ((digitsToNat frac : ℚ) / (10 : ℚ) ^ frac.length)
    | [], _ => none
    | _, '.' :: r =>
        let frac := r.takeWhile isDigit
        some ((digitsToNat intPart : ℚ) + (digitsToNat frac : ℚ) / (10 : ℚ) ^ frac.length)
    | _, _ => some (digitsToNat intPart : ℚ)
  match l with
  | '-' :: r => (core r).map (fun q => -q)
  | _ => core l

/-! ### Model of JSON.parse

A recursive-descent parser for the JSON grammar, with V8-style error
messages; positions are indices into the parsed string, as in the messages
the source code scans for the word "position". -/

def jsonWs (c : Char) : Bool := c = ' ' || c = '\t' || c = '\n' || c = '\x0d'

def eofMsg : String := "Unexpected end of JSON input"

def tokMsg (c : Char) (pos : Nat) : String :=
  "Unexpected token " ++ ⟨[c]⟩ ++ " in JSON at position " ++ natToStr pos

/-- Skip JSON whitespace, tracking the position. -/
def jsonSkipWs : List Char → Nat → List Char × Nat
  | [], p => ([], p)
  | c :: r, p => if jsonWs c then jsonSkipWs r (p + 1) else (c :: r, p)

/-- Parse the remainder of a JSON string literal (the opening quote already
consumed); escape sequences are accepted and decoded, with unicode escapes
decoded from their hexadecimal digits. -/
def jsonString : List Char → Nat → Except String (String × List Char × Nat)
  | [], _ => .error eofMsg
  | '"' :: r, p => .ok ("", r, p + 1)
  | '\\' :: r, p =>
      match r with
      | [] => .error eofMsg
      | e :: r2 =>
          let dec : Option Char :=
            if e = '"' then some '"'
            else if e = '\\' then some '\\'
            else if e = '/' then some '/'
            else if e = 'b' then some '\x08'
            else if e = 'f' then some '\x0c'
            else if e = 'n' then some '\n'
            else if e = 'r' then some '\x0d'
            else if e = 't' then some '\t'
            else none
          match dec with
          | some c =>
              match jsonString r2 (p + 2) with
              | .ok (s, r3, p3) => .ok (⟨c :: s.data⟩, r3, p3)
              | .error m => .error m
          | none =>
              if e = 'u' then
                match r2 with
                | a :: b :: c :: d :: r3 =>
                    let hexv : Char → Option Nat := fun h =>
                      if isDigit h then some (digitVal h)
                      else if 'a' ≤ h && h ≤ 'f' then some (h.toNat - 'a'.toNat + 10)
                      else if 'A' ≤ h && h ≤ 'F' then some (h.toNat - 'A'.toNat + 10)
                      else none
                    match hexv a, hexv b, hexv c, hexv d with
                    | some x1, some x2, some x3, some x4 =>
                        let n := ((x1 * 16 + x2) * 16 + x3) * 16 + x4
                        match jsonString r3 (p + 6) with
                        | .ok (s, r4, p4) =>
                            .ok (⟨Char.ofNat n :: s.data⟩, r4, p4)
                        | .error m => .error m
                    | _, _, _, _ => .error (tokMsg e (p + 1))
                | _ => .error eofMsg
              else .error (tokMsg e (p + 1))
  | c :: r, p =>
      match jsonString r (p + 1) with
      | .ok (s, r2, p2) => .ok (⟨c :: s.data⟩, r2, p2)
      | .error m => .error m

/-- Parse a JSON number starting at the current character, which is known to
be a minus sign or digit. -/
def jsonNumber (l : List Char) (p : Nat) : Except String (ℚ × List Char × Nat) :=
  let (neg, l1, p1) :=
    match l with
    | '-' :: r => (true, r, p + 1)
    | _ => (false, l, p)
  let intD := l1.takeWhile isDigit
  if intD = [] then
    match l1 with
    | [] => .error eofMsg
    | c :: _ => .error (tokMsg c p1)
  else if intD.length > 1 && intD.headI = '0' then
    .error (tokMsg '0' p1)
  else
    let l2 := l1.dropWhile isDigit
    let p2 := p1 + intD.length
    let (fracD, l3, p3) :=
      match l2 with
      | '.' :: r =>
          let f := r.takeWhile isDigit
          (f, r.dropWhile isDigit, p2 + 1 + f.length)
      | _ => ([], l2, p2)
    match l2, fracD with
    | '.' :: _, [] =>
        match l3 with
        | [] => .error eofMsg
        | c :: _ => .error (tokMsg c p3)
    | _, _ =>
      let (expSign, expD, l5, p5) :=
        match l3 with
        | 'e' :: r | 'E' :: r =>
            let (s, r1, pa) :=
              match r with
              | '+' :: r2 => ((1 : Int), r2, p3 + 2)
              | '-' :: r2 => ((-1 : Int), r2, p3 + 2)
              | _ => ((1 : Int), r, p3 + 1)
            let e := r1.takeWhile isDigit
            (s, e, r1.dropWhile isDigit, pa + e.length)
        | _ => ((1 : Int), [], l3, p3)
      match l3, expD with
      | 'e' :: _, [] =>
          (match l5 with
           | [] => .error eofMsg
           | c :: _ => .error (tokMsg c p5))
      | 'E' :: _, [] =>
          (match l5 with
           | [] => .error eofMsg
           | c :: _ => .error (tokMsg c p5))
      | _, _ =>
        let mant : ℚ := (digitsToNat intD : ℚ) + (digitsToNat fracD : ℚ) / (10 : ℚ) ^ fracD.length
        let expn : Int := expSign * (digitsToNat expD : Int)
        let scale : ℚ := if 0 ≤ expn then (10 : ℚ) ^ expn.natAbs else 1 / (10 : ℚ) ^ expn.natAbs
        let v := (if neg then -1 else 1) * mant * scale
        .ok (v, l5, p5)

mutual

/-- Parse one JSON value; fuel bounds the recursion depth. -/
def jsonValue : Nat → List Char → Nat → Except String (JsValue × List Char × Nat)
  | 0, _, _ => .error eofMsg
  | fuel + 1, l, p =>
      let (l1, p1) := jsonSkipWs l p
      match l1 with
      | [] => .error eofMsg
      | '"' :: r =>
          match jsonString r (p1 + 1) with
          | .ok (s, r2, p2) => .ok (vstr s, r2, p2)
          | .error m => .error m
      | '\x7b' :: r => jsonObject fuel r (p1 + 1) true []
      | '[' :: r => jsonArray fuel r (p1 + 1) true []
      | 't' :: r =>
          if ['r', 'u', 'e'].isPrefixOf r then .ok (vbool true, r.drop 3, p1 + 4)
          else .error (tokMsg 't' p1)
      | 'f' :: r =>
          if ['a', 'l', 's', 'e'].isPrefixOf r then .ok (vbool false, r.drop 4, p1 + 5)
          else .error (tokMsg 'f' p1)
      | 'n' :: r =>
          if ['u', 'l', 'l'].isPrefixOf r then .ok (vnull, r.drop 3, p1 + 4)
          else .error (tokMsg 'n' p1)
      | c :: r =>
          if c = '-' || isDigit c then
            match jsonNumber (c :: r) p1 with
            | .ok (q, r2, p2) => .ok (vnum q, r2, p2)
            | .error m => .error m
          else .error (tokMsg c p1)

/-- Parse the members of a JSON object after the opening brace; the flag
marks whether no member has been consumed yet. -/
def jsonObject : Nat → List Char → Nat → Bool → List (String × JsValue) →
    Except String (JsValue × List Char × Nat)
  | 0, _, _, _, _ => .error eofMsg
  | fuel + 1, l, p, first, acc =>
      let (l1, p1) := jsonSkipWs l p
      match l1 with
      | [] => .error eofMsg
      | '\x7d' :: r =>
          if first then .ok (vobj acc.reverse, r, p1 + 1)
          else .error (tokMsg '\x7d' p1)
      | '"' :: r =>
          match jsonString r (p1 + 1) with
          | .error m => .error m
          | .ok (k, r2, p2) =>
              let (l3, p3) := jsonSkipWs r2 p2
              match l3 with
              | ':' :: r3 =>
                  match jsonValue fuel r3 (p3 + 1) with
                  | .error m => .error m
                  | .ok (v, r4, p4) =>
                      let (l5, p5) := jsonSkipWs r4 p4
                      match l5 with
                      | ',' :: r5 => jsonObject fuel r5 (p5 + 1) false ((k, v) :: acc)
                      | '\x7d' :: r5 => .ok (vobj ((k, v) :: acc).reverse, r5, p5 + 1)
                      | [] => .error eofMsg
                      | c :: _ => .error (tokMsg c p5)
              | [] => .error eofMsg
              | c :: _ => .error (tokMsg c p3)
      | c :: _ => .error (tokMsg c p1)

/-- Parse the elements of a JSON array after the opening bracket. -/
def jsonArray : Nat → List Char → Nat → Bool → List JsValue →
    Except String (JsValue × List Char × Nat)
  | 0, _, _, _, _ => .error eofMsg
  | fuel + 1, l, p, first, acc =>
      let (l1, p1) := jsonSkipWs l p
      match l1 with
      | [] => .error eofMsg
      | ']' :: r =>
          if first then .ok (varr acc.reverse, r, p1 + 1)
          else .error (tokMsg ']' p1)
      | _ =>
          match jsonValue fuel l1 p1 with
          | .error m => .error m
          | .ok (v, r2, p2) =>
              let (l3, p3) := jsonSkipWs r2 p2
              match l3 with
              | ',' :: r3 => jsonArray fuel r3 (p3 + 1) false (v :: acc)
              | ']' :: r3 => .ok (varr (v :: acc).reverse, r3, p3 + 1)
              | [] => .error eofMsg
              | c :: _ => .error (tokMsg c p3)

end

/-- Model of JSON.parse on a string: parse one value, then require only
whitespace up to the end of the input. -/
def jsonParse (s : String) : Except String JsValue :=
  match jsonValue (s.length + 1) s.data 0 with
  | .error m => .error m
  | .ok (v, rest, p) =>
      let (r1, p1) := jsonSkipWs rest p
      match r1 with
      | [] => .ok v
      | c :: _ => .error (tokMsg c p1)

/-! ### Executable model of the specific regular expressions used by the
normalization code

Patterns are sequences of case-insensitive literals, the dot wildcard, and
greedy whitespace repetitions; this covers exactly the expressions occurring
in the source (where repetition is always followed by a non-whitespace
literal, so greedy matching without backtracking is faithful). -/

inductive PatElem where
  | lit (c : Char)
  | anyc
  | wsPlus
  | wsStar

/-- Literal pattern from a key that the source passes through a
regex-escaping step (every character taken verbatim). -/
def patLits (s : String) : List PatElem := s.data.map PatElem.lit

/-- Literal pattern from an unescaped key, where a dot acts as the regex
wildcard (the county abbreviation table builds its regexes without
escaping). -/
def patRaw (s : String) : List PatElem :=
  s.data.map (fun c => if c = '.' then PatElem.anyc else PatElem.lit c)

/-- Number of characters consumed by the pattern at the head of the text;
whitespace repetitions are greedy. -/
def patConsume : List PatElem → List Char → Option Nat
  | [], _ => some 0
  | .lit c :: ps, t =>
      match t with
      | [] => none
      | x :: r => if jsLowerChar x = jsLowerChar c then (patConsume ps r).map (· + 1) else none
  | .anyc :: ps, t =>
      match t with
      | [] => none
      | _ :: r => (patConsume ps r).map (· + 1)
  | .wsPlus :: ps, t =>
      let n := (t.takeWhile jsIsWs).length
      if n = 0 then none else (patConsume ps (t.drop n)).map (· + n)
  | .wsStar :: ps, t =>
      let n := (t.takeWhile jsIsWs).length
      (patConsume ps (t.drop n)).map (· + n)

/-- Word boundary between two optional characters, as the regex
backslash-b assertion. -/
def bnd (a b : Option Char) : Bool :=
  (match a with | some c => jsIsWord c | none => false) ≠
    (match b with | some c => jsIsWord c | none => false)

/-- First alternative (in order) that matches at the head of the text with a
word boundary after its final character; yields the consumed length. -/
def altMatch (alts : List (List PatElem)) (t : List Char) : Option Nat :=
  match alts with
  | [] => none
  | p :: rest =>
      match patConsume p t with
      | some n =>
          if bnd ((t.take n).getLast?) ((t.drop n).head?) then some n
          else altMatch rest t
      | none => altMatch rest t

/-- Global word-bounded replacement: model of
replace(new RegExp(backslash-b key backslash-b, "gi"), value), generalized
to an ordered alternation. Scanning resumes after each replaced match, and
boundaries are judged on the original characters. -/
def replaceWordAltsGo (fuel : Nat) (alts : List (List PatElem)) (repl : List Char)
    (prev : Option Char) (t : List Char) : List Char :=
  match fuel with
  | 0 => t
  | fuel + 1 =>
      match t with
      | [] => []
      | c :: r =>
          if bnd prev (some c) then
            match altMatch alts t with
            | some n =>
                if n = 0 then c :: replaceWordAltsGo fuel alts repl (some c) r
                else repl ++ replaceWordAltsGo fuel alts repl ((t.take n).getLast?) (t.drop n)
            | none => c :: replaceWordAltsGo fuel alts repl (some c) r
          else c :: replaceWordAltsGo fuel alts repl (some c) r

def replaceWordAlts (alts : List (List PatElem)) (repl : List Char) (s : List Char) : List Char :=
  replaceWordAltsGo (s.length + 1) alts repl none s

def replaceWord (pat : List PatElem) (repl : List Char) (s : List Char) : List Char :=
  replaceWordAlts [pat] repl s

/-- Existence test for a word-bounded alternation anywhere in the text:
model of test() on a backslash-b alternation backslash-b regex. -/
def containsWordAlts (alts : List (List PatElem)) : Option Char → List Char → Bool
  | _, [] => false
  | prev, c :: r =>
      (bnd prev (some c) && (altMatch alts (c :: r)).isSome) ||
        containsWordAlts alts (some c) r

/-- Unanchored search without boundary assertions: model of test() on a
plain (non-word-bounded) regex. -/
def searchPats (alts : List (List PatElem)) : List Char → Bool
  | [] => alts.any (fun p => (patConsume p []).isSome)
  | c :: r => alts.any (fun p => (patConsume p (c :: r)).isSome) || searchPats alts r

/-- Anchored test: the pattern matches at the start of the text and is
followed by a word boundary — model of test() on a caret-anchored regex
ending in backslash-b. -/
def startsPatWordEnd (pat : List PatElem) (t : List Char) : Bool :=
  match patConsume pat t with
  | some n => bnd ((t.take n).getLast?) ((t.drop n).head?)
  | none => false

/-! ### Embedding of src/utils/normalization.ts -/

/-- State alternatives of the trailing state-qualifier regex in
normalizeCounty, in source order. -/
def stateAltL : List String :=
  ["florida", "fl", "california", "ca", "texas", "tx", "new york", "ny"]

/-- Whether the characters after a comma consist of optional whitespace, one
state alternative, and optional whitespace to the end. -/
def stateSuffixTail (t : List Char) : Bool :=
  let t1 := jsLowerL (t.dropWhile jsIsWs)
  stateAltL.any (fun a => a.data.isPrefixOf t1 && (t1.drop a.length).all jsIsWs)

def findStateComma : List Char → Option Nat
  | [] => none
  | c :: r =>
      if c = ',' && stateSuffixTail r then some 0
      else (findStateComma r).map (· + 1)

/-- Model of replace(comma ws* (state alternatives) ws* end, empty): remove
the leftmost trailing state qualifier. -/
def removeStateSuffix (l : List Char) : List Char :=
  match findStateComma l with
  | some i => l.take i
  | none => l

def rtrimWs (l : List Char) : List Char := (l.reverse.dropWhile jsIsWs).reverse

/-- Model of replace(ws+ word ws* end, empty) for a fixed case-insensitive
word: strip a trailing occurrence of the word together with the whitespace
run before it. -/
def removeTrailingWord (w : String) (l : List Char) : List Char :=
  let l1 := rtrimWs l
  let ll := jsLowerL l1
  if w.data.isSuffixOf ll && l1.length > w.length then
    let before := l1.take (l1.length - w.length)
    match before.getLast? with
    | some c => if jsIsWs c then rtrimWs before else l
    | none => l
  else l

/-- Model of the anchored Miami-Dade variant regex
caret miami ws* hyphen? ws* dade (ws+ county)? end, case-insensitive. -/
def isMiamiDadeVariant (l : List Char) : Bool :=
  let ll := jsLowerL l
  if "miami".data.isPrefixOf ll then
    let r := (ll.drop 5).dropWhile jsIsWs
    let r2 := match r with
      | '-' :: t => t.dropWhile jsIsWs
      | _ => r
    if "dade".data.isPrefixOf r2 then
      let r3 := r2.drop 4
      r3 = [] ||
        (match r3 with
         | c :: _ => jsIsWs c && r3.dropWhile jsIsWs = "county".data
         | [] => false)
    else false
  else false

/-- Abbreviation table of normalizeCounty, in source order; its regexes are
built without escaping, so the dot in the dotted keys is a wildcard. -/
def countyAbbrevTable : List (List PatElem × String) :=
  [(patRaw "nyc", "new york"), (patRaw "ny", "new york"),
   (patRaw "new york city", "new york"),
   (patRaw "st.", "saint"), (patRaw "st", "saint"),
   (patRaw "ft.", "fort"), (patRaw "ft", "fort")]

def capFirst : List Char → List Char
  | [] => []
  | c :: r => jsUpperChar c :: r

def joinWith (sep : Char) (ws : List (List Char)) : List Char :=
  List.intercalate [sep] ws

/-- Final fixup regex of normalizeCounty:
replace(backslash-b Miami ws+ Dade backslash-b, "Miami-Dade", global,
case-insensitive). -/
def miamiFixup (l : List Char) : List Char :=
  replaceWord (patLits "miami" ++ [PatElem.wsPlus] ++ patLits "dade") "Miami-Dade".data l

/-- Embedding of normalizeCounty (normalization.ts). The argument is the
runtime value of the county field. -/
def normalizeCounty (county : JsValue) : String :=
  if !truthy county then "Unknown"
  else
    let countyStr :=
      match county with
      | JsValue.vstr s => s
      | _ => jsToString (jsOr county (JsValue.vstr ""))
    let n0 := jsLowerL (jsTrimL countyStr.data)
    let n1 := jsTrimL (removeStateSuffix n0)
    let n2 := jsTrimL (removeTrailingWord "county" n1)
    let n3 := if n2 = "dade".data then "miami-dade".data else n2
    let n4 := if isMiamiDadeVariant n3 then "miami-dade".data else n3
    let n5 := countyAbbrevTable.foldl (fun acc e => replaceWord e.1 e.2.data acc) n4
    let parts := splitDropL (fun c => jsIsWs c || c = '-') n5
    let caps := parts.map capFirst
    let hadHyphen := n5.contains '-'
    let n6 := if hadHyphen then joinWith '-' caps else joinWith ' ' caps
    ⟨miamiFixup n6⟩

/-- Convenience wrapper of normalizeCounty on an ordinary string input. -/
def normalizeCountyStr (s : String) : String := normalizeCounty (JsValue.vstr s)

/-- Punctuation class removed by normalizeLender. -/
def isLenderPunct (c : Char) : Bool :=
  c = '.' || c = ',' || c = ';' || c = ':' || c = '!' || c = '?' ||
    c = '\x27' || c = '"' || c = '(' || c = ')'

/-- Abbreviation table of normalizeLender, in source order; its keys are
regex-escaped by the source, so dots are literal. -/
def lenderAbbrevTable : List (List PatElem × String) :=
  [(patLits "inc", "incorporated"), (patLits "inc.", "incorporated"),
   (patLits "llc", "limited liability company"), (patLits "llc.", "limited liability company"),
   (patLits "ltd", "limited"), (patLits "ltd.", "limited"),
   (patLits "corp", "corporation"), (patLits "corp.", "corporation"),
   (patLits "co", "company"), (patLits "co.", "company"),
   (patLits "lp", "limited partnership"), (patLits "lp.", "limited partnership"),
   (patLits "llp", "limited liability partnership"),
   (patLits "llp.", "limited liability partnership"),
   (patLits "na", "national association"), (patLits "fsa", "federal savings association"),
   (patLits "fcu", "federal credit union"), (patLits "cu", "credit union"),
   (patLits "fcb", "federal credit bank"),
   (patLits "&", "and"), (patLits "amp", "and"),
   (patLits "mtg", "mortgage"), (patLits "mtg.", "mortgage"),
   (patLits "svc", "service"), (patLits "svc.", "service"),
   (patLits "svcs", "services"), (patLits "svcs.", "services"),
   (patLits "mgmt", "management"), (patLits "mgmt.", "management"),
   (patLits "fin", "financial"), (patLits "fin.", "financial"),
   (patLits "fnd", "fund"), (patLits "fnd.", "fund"),
   (patLits "grp", "group"), (patLits "grp.", "group")]

/-- Plural-to-singular table of normalizeLender, in source order. -/
def lenderPluralTable : List (List PatElem × String) :=
  [(patLits "banks", "bank"), (patLits "mortgages", "mortgage"),
   (patLits "services", "service"), (patLits "groups", "group"),
   (patLits "companies", "company"), (patLits "corporations", "corporation"),
   (patLits "associations", "association"), (patLits "unions", "union"),
   (patLits "funds", "fund"), (patLits "trusts", "trust")]

/-- Word-variation table of normalizeLender. -/
def lenderVariationTable : List (List PatElem × String) :=
  [(patLits "finance", "financial")]

/-- Model of replace(caret the ws+, empty): strip one leading "the". -/
def stripLeadingThe (l : List Char) : List Char :=
  match patConsume (patLits "the" ++ [PatElem.wsPlus]) l with
  | some n => l.drop n
  | none => l

/-- Company-type alternation tested by normalizeLender before stripping a
trailing "company". -/
def companyTypeAlts : List (List PatElem) :=
  [patLits "incorporated", patLits "corporation", patLits "limited liability company",
   patLits "llc", patLits "inc", patLits "corp"]

def stopWords : List (List Char) :=
  ["the".data, "of".data, "and".data, "a".data, "an".data,
   "in".data, "on".data, "at".data, "to".data, "for".data]

/-- Title-casing step of normalizeLender: split on single spaces, capitalize
each word unless it is a stop word whose first occurrence in the whole
string (as a substring) is past position zero. -/
def lenderTitleCase (l : List Char) : List Char :=
  let words := splitSpaceExact l
  let mapped := words.map (fun w =>
    if stopWords.contains w &&
        (match jsIndexOfL w l with
         | some i => i > 0
         | none => false) then w
    else capFirst w)
  joinWith ' ' mapped

/-- Embedding of normalizeLender (normalization.ts). The argument is the
runtime value of the lender or plaintiff field. -/
def normalizeLender (lender : JsValue) : String :=
  if !truthy lender then "Unknown"
  else if isDateV lender then "Unknown"
  else
    let lenderStr :=
      match lender with
      | JsValue.vstr s => s
      | _ => jsToString (jsOr lender (JsValue.vstr ""))
    let n0 := jsLowerL (jsTrimL lenderStr.data)
    let n1 := n0.filter (fun c => !isLenderPunct c)
    let n2 := replaceWordAlts [patLits "us", patLits "u.s.", patLits "united states"]
      "united states".data n1
    let n3 := lenderAbbrevTable.foldl (fun acc e => replaceWord e.1 e.2.data acc) n2
    let n4 := lenderPluralTable.foldl (fun acc e => replaceWord e.1 e.2.data acc) n3
    let n5 := lenderVariationTable.foldl (fun acc e => replaceWord e.1 e.2.data acc) n4
    let n6 := stripLeadingThe n5
    let n7 :=
      if containsWordAlts companyTypeAlts none n6 then removeTrailingWord "company" n6
      else n6
    let n8 := jsTrimL (collapseWsL n7)
    if startsPatWordEnd (patLits "wilmington") n8 then "Wilmington"
    else if startsPatWordEnd (patLits "jpmorgan") n8 then "JPMorgan"
    else if startsPatWordEnd (patLits "wells" ++ [PatElem.wsStar] ++ patLits "fargo") n8 then
      "Wells Fargo"
    else if startsPatWordEnd (patLits "computershare" ++ [PatElem.wsPlus] ++ patLits "trust"
        ++ [PatElem.wsPlus] ++ patLits "company" ++ [PatElem.wsPlus] ++ patLits "national") n8 then
      "Computer Trust Company"
    else if startsPatWordEnd (patLits "lincoln" ++ [PatElem.wsPlus] ++ patLits "street") n8 then
      "Lincoln Street"
    else if startsPatWordEnd (patLits "american" ++ [PatElem.wsPlus] ++ patLits "general"
        ++ [PatElem.wsPlus] ++ patLits "life" ++ [PatElem.wsPlus] ++ patLits "insurance") n8 then
      "American General Life"
    else if searchPats [patLits "ef" ++ [PatElem.wsPlus] ++ patLits "mortgage"] n8 then
      "EF Mortgage"
    else if searchPats [patLits "tryon" ++ [PatElem.wsPlus] ++ patLits "street",
        patLits "tyron" ++ [PatElem.wsPlus] ++ patLits "street"] n8 then
      "Tryon Street"
    else if startsPatWordEnd (patLits "sig" ++ [PatElem.wsStar] ++ patLits "rcrs") n8 then
      "SIG RCRS"
    else if startsPatWordEnd (patLits "sig" ++ [PatElem.wsStar] ++ patLits "cre") n8 then
      "Sig Cre"
    else ⟨lenderTitleCase n8⟩

/-! ### Embedding of src/utils/dataQuality.ts -/

/-- Runtime shape of a ComplaintRow: an ordered field map (the interface has
an index signature, and the code iterates the keys of the object in
insertion order). -/
abbrev RowMap := List (String × JsValue)

/-- Property access on a row: the value of the first binding of the key, or
undefined when the key is absent. -/
def lookupJs (row : RowMap) (k : String) : JsValue :=
  match row.find? (fun e => e.1 = k) with
  | some e => e.2
  | none => JsValue.vundef

/-- Runtime shape of a ProcessedComplaint: the spread of the raw row with
the overridden properties written by validateRow (or by the per-row
exception handler) as explicit fields. The upb and complaintDate overrides
keep the loose runtime type because the exception handler spreads the raw
row without coercing them. -/
structure ProcessedComplaint where
  raw : RowMap
  upb : JsValue
  complaintDate : JsValue
  isValid : Bool
  errors : Option (List String)
  normalizedCounty : String
  normalizedLender : String
  isDuplicate : Bool

/-- Embedding of normalizeForComparison (dataQuality.ts): lowercase, trim,
collapse whitespace runs, strip non-word non-space characters. -/
def normalizeForComparison (v : JsValue) : String :=
  if !truthy v then ""
  else
    let strValue :=
      match v with
      | JsValue.vstr s => s
      | _ => jsToString (jsOr v (JsValue.vstr ""))
    ⟨(collapseWsL (jsTrimL (jsLowerL strValue.data))).filter
      (fun c => jsIsWord c || jsIsWs c)⟩

/-- Epoch milliseconds denoted by a value passed to the Date constructor (or
already a Date): none models an Invalid Date / NaN timestamp. -/
def msOfDateArg (v : JsValue) : Option Int :=
  match v with
  | JsValue.vdate t => t
  | JsValue.vstr s => jsParseDate s
  | JsValue.vnum q => some q.floor
  | _ => none

/-- Embedding of createRowKeys (dataQuality.ts): the four duplicate-search
keys of a processed record, in strategy order. -/
def createRowKeys (row : ProcessedComplaint) : List String :=
  let address := normalizeForComparison (lookupJs row.raw "propertyAddress")
  let county := normalizeForComparison
    (jsOr (JsValue.vstr row.normalizedCounty)
      (JsValue.vstr (normalizeCounty (lookupJs row.raw "county"))))
  let lender := normalizeForComparison
    (jsOr (JsValue.vstr row.normalizedLender)
      (JsValue.vstr (normalizeLender
        (jsOr (lookupJs row.raw "lender") (lookupJs row.raw "plaintiff")))))
  let dateStr :=
    if truthy row.complaintDate then
      match msOfDateArg row.complaintDate with
      | some ms => isoDateOfMs ms
      | none => ""
    else ""
  let upbStr :=
    match row.upb with
    | JsValue.vundef => ""
    | JsValue.vnull => ""
    | v => jsToString v
  let exactKey := address ++ "|" ++ county ++ "|" ++ lender ++ "|" ++ dateStr ++ "|" ++ upbStr
  let withoutUPB := address ++ "|" ++ county ++ "|" ++ lender ++ "|" ++ dateStr
  let addressDate := address ++ "|" ++ dateStr
  let fuzzyAddress : String := ⟨address.data.take 20⟩
  let fuzzyKey := fuzzyAddress ++ "|" ++ county ++ "|" ++ lender ++ "|" ++ dateStr
  [exactKey, withoutUPB, addressDate, fuzzyKey]

/-- Per-index result of detectDuplicates. -/
structure DupInfo where
  isDuplicate : Bool
  duplicateOf : Option Nat
deriving DecidableEq, Repr

/-- First registration of a key in the seen-keys map (Map.get composed with
Map.has, the map being extended only at unseen keys). -/
def lookupSeen (seen : List (String × Nat)) (k : String) : Option Nat :=
  (seen.find? (fun e => e.1 = k)).map (·.2)

/-- Embedding of the key-probing loop of detectDuplicates: the first
strategy key (in order) that is nonempty and registered at a different
index yields that index. -/
def findKeyMatch (seen : List (String × Nat)) (i : Nat) : List String → Option Nat
  | [] => none
  | k :: ks =>
      if k ≠ "" then
        match lookupSeen seen k with
        | some j => if j ≠ i then some j else findKeyMatch seen i ks
        | none => findKeyMatch seen i ks
      else findKeyMatch seen i ks

/-- Embedding of the key-registration loop of detectDuplicates: register
every nonempty, not yet registered key at the given index
(first-seen-wins). -/
def registerKeys (seen : List (String × Nat)) (i : Nat) (keys : List String) :
    List (String × Nat) :=
  keys.foldl (fun m k => if k ≠ "" && (lookupSeen m k).isNone then m ++ [(k, i)] else m) seen

def detectDuplicatesAux : List ProcessedComplaint → Nat → List (String × Nat) → List DupInfo
  | [], _, _ => []
  | r :: rs, i, seen =>
      if r.isValid then
        let keys := createRowKeys r
        match findKeyMatch seen i keys with
        | some j => ⟨true, some j⟩ :: detectDuplicatesAux rs (i + 1) seen
        | none => ⟨false, none⟩ :: detectDuplicatesAux rs (i + 1) (registerKeys seen i keys)
      else ⟨false, none⟩ :: detectDuplicatesAux rs (i + 1) seen

/-- Embedding of detectDuplicates (dataQuality.ts). The returned map from
index to flag is represented positionally: entry i of the list is the value
stored for key i (the source sets exactly one entry per index, in index
order). -/
def detectDuplicates (rows : List ProcessedComplaint) : List DupInfo :=
  detectDuplicatesAux rows 0 []

/-- Embedding of looksLikeJSON (dataQuality.ts). -/
def looksLikeJSON (s : String) : Bool :=
  let t := (jsTrim s).data
  (t.head? = some '\x7b' && t.getLast? = some '\x7d') ||
  (t.head? = some '[' && t.getLast? = some ']') ||
  t.head? = some '"' ||
  t.head? = some '\x7b' || t.head? = some '['

/-- Embedding of attemptJSONFix (dataQuality.ts): append missing closing
braces and brackets, then wrap bare key-value content in braces. (The
source types the result as nullable but never returns null.) -/
def attemptJSONFix (jsonStr : String) : String :=
  let f0 := jsTrimL jsonStr.data
  let openBraces := (f0.filter (· = '\x7b')).length
  let closeBraces := (f0.filter (· = '\x7d')).length
  let openBrackets := (f0.filter (· = '[')).length
  let closeBrackets := (f0.filter (· = ']')).length
  let f1 := f0 ++ List.replicate (openBraces - closeBraces) '\x7d'
  let f2 := f1 ++ List.replicate (openBrackets - closeBrackets) ']'
  let f3 :=
    if f2.head? ≠ some '\x7b' && f2.head? ≠ some '[' && f2.contains ':' then
      '\x7b' :: f2 ++ ['\x7d']
    else f2
  ⟨f3⟩

/-- Result shape of validateJSONField. -/
structure JSONFieldResult where
  isValid : Bool
  parsed : JsValue
  error : Option String
  wasFixed : Bool

/-- Position number quoted in a parser message: model of
match(regex position space digits) followed by parseInt. -/
def findPositionNum : List Char → Option Nat
  | [] => none
  | c :: r =>
      let t := c :: r
      if "position ".data.isPrefixOf t then
        let digits := (t.drop 9).takeWhile isDigit
        if digits = [] then findPositionNum r else some (digitsToNat digits)
      else findPositionNum r

/-- Detailed parse-failure message of validateJSONField, with the
40-character context window around a quoted position. -/
def jsonErrorDetail (fieldName e : String) (trimmed : String) : String :=
  let base := "Invalid JSON in " ++ fieldName ++ ": " ++ e
  if jsIncludes e "position" then
    match findPositionNum e.data with
    | some pos =>
        let start := pos - 20
        let stop := min trimmed.length (pos + 20)
        base ++ " (near: \"" ++ ⟨jsSubstringL trimmed.data start stop⟩ ++ "\")"
    | none => base
  else base

/-- Embedding of validateJSONField (dataQuality.ts). -/
def validateJSONField (field : JsValue) (fieldName : String) : JSONFieldResult :=
  match field with
  | JsValue.vnull => ⟨true, JsValue.vnull, none, false⟩
  | JsValue.vundef => ⟨true, JsValue.vnull, none, false⟩
  | JsValue.vstr s =>
      if s = "" then ⟨true, JsValue.vnull, none, false⟩
      else
        let trimmed := jsTrim s
        if !looksLikeJSON trimmed && trimmed.length < 2 then
          ⟨true, JsValue.vstr s, none, false⟩
        else
          match jsonParse trimmed with
          | .ok parsed => ⟨true, parsed, none, false⟩
          | .error e =>
              let fixed := attemptJSONFix trimmed
              if fixed ≠ "" then
                match jsonParse fixed with
                | .ok parsed =>
                    ⟨true, parsed,
                      some ("JSON in " ++ fieldName ++ " was malformed but auto-fixed"), true⟩
                | .error _ => ⟨false, JsValue.vnull, some (jsonErrorDetail fieldName e trimmed), false⟩
              else ⟨false, JsValue.vnull, some (jsonErrorDetail fieldName e trimmed), false⟩
  | JsValue.vobj _ => ⟨true, field, none, false⟩
  | JsValue.vdate _ => ⟨true, field, none, false⟩
  | JsValue.varr _ => ⟨true, field, none, false⟩
  | _ => ⟨true, field, none, false⟩

/-- Field-name substrings that mark a field as a JSON candidate. -/
def jsonNameHints : List String :=
  ["json", "metadata", "data", "details", "info", "extra", "additional"]

/-- Embedding of scanForJSONFields (dataQuality.ts). -/
def scanForJSONFields (row : RowMap) : List (String × JsValue) :=
  row.filter (fun e =>
    (jsonNameHints.any (fun h => jsIncludes (jsLower e.1) h)) ||
      (match e.2 with
       | JsValue.vstr s => looksLikeJSON s
       | _ => false))

/-- Issue lists and coerced values accumulated by validateRow, in push
order. -/
structure RowIssues where
  errors : List String
  warnings : List String
  upbVal : Option ℚ
  dateVal : Option Int

def jsIsEmptyStr : JsValue → Bool
  | JsValue.vstr s => s = ""
  | _ => false

/-- Value of the length property, where it exists. -/
def jsLengthLt (n : Nat) : JsValue → Bool
  | JsValue.vstr s => s.length < n
  | JsValue.varr l => l.length < n
  | _ => false

def trimIfString (v : JsValue) : JsValue :=
  match v with
  | JsValue.vstr s => JsValue.vstr (jsTrim s)
  | _ => v

/-- Future / very-old warnings attached to an accepted complaint date. -/
def dateAgeWarnings (now ms : Int) : List String :=
  (if ms > now then ["Complaint date is in the future"] else []) ++
    (if ms < msMinusTenYears now then ["Complaint date is more than 10 years old"] else [])

/-- UPB block of validateRow: errors, warnings and the coerced value. -/
def upbIssues (uv : JsValue) : List String × List String × Option ℚ :=
  match uv with
  | JsValue.vundef => ([], ["UPB is missing"], none)
  | JsValue.vnull => ([], ["UPB is missing"], none)
  | JsValue.vstr s =>
      let cleaned := (jsTrimL s.data).filter (fun c => isDigit c || c = '.' || c = '-')
      if cleaned = [] then (["UPB is empty or contains no numbers"], [], none)
      else
        match parseFloatModel cleaned with
        | none => (["Invalid UPB format: \"" ++ s ++ "\""], [], none)
        | some q =>
            if q < 0 then ([], ["UPB is negative"], some q)
            else if q = 0 then ([], ["UPB is zero"], some q)
            else if q > 1000000000 then ([], ["UPB seems unusually high"], some q)
            else ([], [], some q)
  | JsValue.vnum q =>
      if q < 0 then ([], ["UPB is negative"], some q)
      else if q = 0 then ([], ["UPB is zero"], some q)
      else if q > 1000000000 then ([], ["UPB seems unusually high"], some q)
      else ([], [], some q)
  | v => (["Invalid UPB type: " ++ typeofName v], [], none)

/-- Complaint-date block of validateRow: errors, warnings and the coerced
timestamp. -/
def dateIssues (now : Int) (dv : JsValue) : List String × List String × Option Int :=
  if !truthy dv then ([], ["Complaint date is missing"], none)
  else
    match dv with
    | JsValue.vdate none => (["Invalid Date object"], [], none)
    | JsValue.vdate (some ms) => ([], dateAgeWarnings now ms, some ms)
    | JsValue.vstr s =>
        let trimmed := jsTrim s
        if trimmed = "" then (["Complaint date is empty string"], [], none)
        else
          match jsParseDate trimmed with
          | none => (["Invalid date format: \"" ++ trimmed ++ "\""], [], none)
          | some ms => ([], dateAgeWarnings now ms, some ms)
    | v => (["Invalid date type: " ++ typeofName v], [], none)

/-- JSON-field block of validateRow: scan the row for candidates and fold
their validation results into errors and auto-fix warnings. -/
def jsonIssues (row : RowMap) : List String × List String :=
  (scanForJSONFields row).foldl
    (fun acc e =>
      let r := validateJSONField e.2 e.1
      match r.error with
      | some msg =>
          if !r.isValid then (acc.1 ++ [msg], acc.2)
          else if r.wasFixed then (acc.1, acc.2 ++ [msg])
          else acc
      | none => acc)
    ([], [])

/-- Issue accumulation of validateRow (dataQuality.ts), block by block in
source order; the now parameter is the timestamp of the Date objects the
source allocates during validation. -/
def rowIssues (now : Int) (row : RowMap) : RowIssues :=
  let propertyAddress := trimIfString (lookupJs row "propertyAddress")
  let addrErr :=
    if !truthy propertyAddress || jsIsEmptyStr propertyAddress then
      ["Missing or empty property address"] else []
  let addrWarn :=
    if !(!truthy propertyAddress || jsIsEmptyStr propertyAddress) &&
        jsLengthLt 5 propertyAddress then
      ["Property address seems too short"] else []
  let county := trimIfString (lookupJs row "county")
  let countyErr :=
    if !truthy county || jsIsEmptyStr county then ["Missing or empty county"] else []
  let lender := trimIfString (lookupJs row "lender")
  let plaintiff := trimIfString (lookupJs row "plaintiff")
  let lenderMissingErr :=
    if (!truthy lender || jsIsEmptyStr lender) && (!truthy plaintiff || jsIsEmptyStr plaintiff)
    then ["Missing or empty lender/plaintiff"] else []
  let lenderValue := jsNullish lender plaintiff
  let lenderTypeErr :=
    if isDateV lenderValue then ["Invalid lender/plaintiff value: date"]
    else
      match lenderValue with
      | JsValue.vundef => []
      | JsValue.vnull => []
      | JsValue.vstr _ => []
      | v => ["Invalid lender/plaintiff value type: " ++ typeofName v]
  let ub := upbIssues (lookupJs row "upb")
  let db := dateIssues now (lookupJs row "complaintDate")
  let jb := jsonIssues row
  { errors := addrErr ++ countyErr ++ lenderMissingErr ++ lenderTypeErr ++
      ub.1 ++ db.1 ++ jb.1,
    warnings := addrWarn ++ ub.2.1 ++ db.2.1 ++ jb.2,
    upbVal := ub.2.2,
    dateVal := db.2.2 }

/-- Embedding of validateRow (dataQuality.ts); the index parameter of the
source is unused there and omitted here. -/
def validateRow (now : Int) (row : RowMap) : ProcessedComplaint :=
  let ri := rowIssues now row
  let allIssues := if ri.errors.length > 0 then ri.errors else ri.warnings
  { raw := row,
    upb := match ri.upbVal with
      | some q => JsValue.vnum q
      | none => JsValue.vundef,
    complaintDate := match ri.dateVal with
      | some ms => JsValue.vdate (some ms)
      | none => JsValue.vundef,
    isValid := ri.errors.length = 0,
    errors := if allIssues.length > 0 then some allIssues else none,
    normalizedCounty := "",
    normalizedLender := "",
    isDuplicate := false }

/-- Issue entry shape of the pipeline. -/
structure DataQualityIssue where
  rowIndex : Nat
  row : RowMap
  errors : List String
  isDuplicate : Bool
  duplicateOf : Option Nat

/-- Summary counters of the pipeline. -/
structure QualitySummary where
  totalRows : Nat
  validRows : Nat
  invalidRows : Nat
  duplicateRows : Nat
  rowsWithJSONErrors : Nat
  rowsWithOtherErrors : Nat
deriving DecidableEq, Repr

structure PipelineResult where
  processed : List ProcessedComplaint
  issues : List DataQualityIssue
  summary : QualitySummary

/-- Whether a validated record carries an error mentioning "json"
case-insensitively (the JSON-error counter predicate of the pipeline). -/
def hasJSONError (p : ProcessedComplaint) : Bool :=
  match p.errors with
  | some es => es.any (fun e => jsIncludes (jsLower e) "json")
  | none => false

/-- Whether the pipeline files an issue entry for a validated record. -/
def recordHasIssue (p : ProcessedComplaint) : Bool :=
  !p.isValid ||
    (match p.errors with
     | some es => es.length > 0
     | none => false)

/-- Record pushed by the per-row exception handler of the pipeline: the raw
row spread with a synthetic error (upb and complaintDate keep their raw
values). -/
def catchRecord (row : RowMap) (msg : String) : ProcessedComplaint :=
  { raw := row,
    upb := lookupJs row "upb",
    complaintDate := lookupJs row "complaintDate",
    isValid := false,
    errors := some ["Validation failed: " ++ msg],
    normalizedCounty := "",
    normalizedLender := "",
    isDuplicate := false }

/-- First pass of the pipeline, validating row by row from the given index:
processed records, issue entries, JSON-error count, other-error count. The
validator argument models the call to validateRow, which the source wraps
in a try/catch; an error result models a thrown exception. -/
def pipelinePass1 (validate : Nat → RowMap → Except String ProcessedComplaint) :
    List RowMap → Nat → List ProcessedComplaint × List DataQualityIssue × Nat × Nat
  | [], _ => ([], [], 0, 0)
  | row :: rest, i =>
      let t := pipelinePass1 validate rest (i + 1)
      match validate i row with
      | .ok v =>
          let hasJ := hasJSONError v
          let issueHere : List DataQualityIssue :=
            if recordHasIssue v then [⟨i, row, v.errors.getD [], false, none⟩] else []
          ((v :: t.1), issueHere ++ t.2.1,
            (if hasJ then 1 else 0) + t.2.2.1,
            (if recordHasIssue v && !hasJ then 1 else 0) + t.2.2.2)
      | .error m =>
          (catchRecord row m :: t.1,
            ⟨i, row, ["Validation exception: " ++ m], false, none⟩ :: t.2.1,
            t.2.2.1, 1 + t.2.2.2)

/-- Normalization pass of the pipeline: assign normalizedCounty and
normalizedLender on every processed record before duplicate detection. -/
def normalizePass (p : ProcessedComplaint) : ProcessedComplaint :=
  { p with
    normalizedCounty := normalizeCounty (lookupJs p.raw "county"),
    normalizedLender := normalizeLender (jsOr (lookupJs p.raw "lender") (lookupJs p.raw "plaintiff")) }

def dupMessage (dOf : Option Nat) : String :=
  "Duplicate row (matches row " ++ natToStr (dOf.getD 0 + 1) ++ ")"

/-- Update the first issue entry of the given row index with the duplicate
finding, reporting whether one was found. -/
def mergeDupIssue (i : Nat) (d : DupInfo) :
    List DataQualityIssue → List DataQualityIssue × Bool
  | [] => ([], false)
  | iss :: rest =>
      if iss.rowIndex = i then
        ({ iss with
            isDuplicate := true,
            duplicateOf := d.duplicateOf,
            errors :=
              if !iss.errors.contains "Duplicate row" then dupMessage d.duplicateOf :: iss.errors
              else iss.errors } :: rest, true)
      else
        let (r, f) := mergeDupIssue i d rest
        (iss :: r, f)

/-- Merge one duplicate finding into the issue list (update the existing
entry of the row, or append a new one). -/
def applyDupIssue (rows : List RowMap) (issues : List DataQualityIssue) (i : Nat)
    (d : DupInfo) : List DataQualityIssue :=
  let t := mergeDupIssue i d issues
  if t.2 then t.1
  else issues ++ [⟨i, rows.getD i [], [dupMessage d.duplicateOf], true, d.duplicateOf⟩]

/-- Embedding of processRowsWithQualityChecks (dataQuality.ts), generalized
over the per-row validator so that the catch path is reachable; the source
function is the instance at the total validator built from validateRow. -/
def processRowsWithQualityChecksGen (validate : Nat → RowMap → Except String ProcessedComplaint)
    (rows : List RowMap) : PipelineResult :=
  let t := pipelinePass1 validate rows 0
  let issues0 := t.2.1
  let jc := t.2.2.1
  let oc := t.2.2.2
  let proc1 := t.1.map normalizePass
  let dups := detectDuplicates proc1
  let proc2 := List.zipWith
    (fun p d => if d.isDuplicate then { p with isDuplicate := true } else p) proc1 dups
  let issues1 := dups.enum.foldl
    (fun iss pr => if pr.2.isDuplicate then applyDupIssue rows iss pr.1 pr.2 else iss) issues0
  let validRows := proc2.countP (fun p => p.isValid && !p.isDuplicate)
  { processed := proc2,
    issues := issues1,
    summary :=
      { totalRows := rows.length,
        validRows := validRows,
        invalidRows := proc2.length - validRows,
        duplicateRows := dups.countP (·.isDuplicate),
        rowsWithJSONErrors := jc,
        rowsWithOtherErrors := oc } }

/-- Embedding of processRowsWithQualityChecks at the concrete validator of
the source (validateRow never throws in the model, so the catch path of the
instance is vacuous). -/
def processRowsWithQualityChecks (now : Int) (rows : List RowMap) : PipelineResult :=
  processRowsWithQualityChecksGen (fun _ row => .ok (validateRow now row)) rows

/-! ### Embedding of src/utils/calculations.ts (four-week roll-up) -/

/-- Roll-up row shape. -/
structure FourWeekRollUp where
  county : String
  totalComplaints : Nat
  totalUPB : ℚ
  totalMeetsCriteria : Nat
  totalUPBMeetsCriteria : ℚ
deriving DecidableEq, Repr

/-- Embedding of meetsCriteria (calculations.ts). -/
def meetsCriteria (c : ProcessedComplaint) : Bool :=
  let v := lookupJs c.raw "meetsCriteria"
  if !truthy v then false
  else
    let criteria :=
      match v with
      | JsValue.vstr s => s
      | _ => jsToString (jsOr v (JsValue.vstr ""))
    jsIncludes (jsLower criteria) "meets criteria"

/-- Embedding of filterValidComplaints (calculations.ts). -/
def filterValidComplaints (cs : List ProcessedComplaint) : List ProcessedComplaint :=
  cs.filter (fun c => c.isValid && !c.isDuplicate)

/-- Window predicate of calculateFourWeekRollUp: the record has a truthy
complaintDate whose timestamp is at least 28 days before the now snapshot
(an invalid timestamp compares as NaN, hence false). -/
def inFourWeekWindow (now : Int) (c : ProcessedComplaint) : Bool :=
  if !truthy c.complaintDate then false
  else
    match msOfDateArg c.complaintDate with
    | some ms => decide (now - 28 * msPerDay ≤ ms)
    | none => false

/-- Grouping key of the roll-up: normalizedCounty, or the normalization of
the raw county field when that is empty. -/
def countyOf (c : ProcessedComplaint) : String :=
  if c.normalizedCounty ≠ "" then c.normalizedCounty
  else normalizeCounty (lookupJs c.raw "county")

/-- Numeric accumulation of a upb value (model of += on the number-typed
values the pipeline stores there; non-numeric values are outside the
domain the roll-up theorems quantify over). -/
def addUPBVal (t : ℚ) (v : JsValue) : ℚ :=
  match v with
  | JsValue.vnum q => t + q
  | _ => t

/-- Update the first roll-up entry of the county, leaving the list
unchanged when none exists (Map.get on a missing key). -/
def updateRollUp (county : String) (f : FourWeekRollUp → FourWeekRollUp) :
    List FourWeekRollUp → List FourWeekRollUp
  | [] => []
  | e :: r => if e.county = county then f e :: r else e :: updateRollUp county f r

/-- Per-record update of a county entry in the total-count pass. -/
def bump1upd (e : FourWeekRollUp) (c : ProcessedComplaint) : FourWeekRollUp :=
  { e with
    totalComplaints := e.totalComplaints + 1,
    totalUPB :=
      if c.isValid && truthy c.upb then addUPBVal e.totalUPB c.upb else e.totalUPB }

/-- Per-record update of a county entry in the criteria pass. -/
def bump2upd (e : FourWeekRollUp) (c : ProcessedComplaint) : FourWeekRollUp :=
  { e with
    totalMeetsCriteria := e.totalMeetsCriteria + 1,
    totalUPBMeetsCriteria :=
      if truthy c.upb then addUPBVal e.totalUPBMeetsCriteria c.upb
      else e.totalUPBMeetsCriteria }

/-- Total-count pass step of the roll-up: create the county entry on first
sight, then increment its total count, adding upb only for valid records
with truthy upb. -/
def bumpTotals (acc : List FourWeekRollUp) (county : String) (c : ProcessedComplaint) :
    List FourWeekRollUp :=
  let acc1 :=
    if acc.any (fun e => e.county = county) then acc else acc ++ [⟨county, 0, 0, 0, 0⟩]
  updateRollUp county (fun e => bump1upd e c) acc1

/-- Criteria pass step of the roll-up: increment the criteria counters of
an existing county entry. -/
def bumpCriteria (acc : List FourWeekRollUp) (county : String) (c : ProcessedComplaint) :
    List FourWeekRollUp :=
  updateRollUp county (fun e => bump2upd e c) acc

/-- Code-point comparison of character lists. -/
def lexCmp : List Char → List Char → Ordering
  | [], [] => .eq
  | [], _ :: _ => .lt
  | _ :: _, [] => .gt
  | a :: as, b :: bs =>
      if a.toNat < b.toNat then .lt
      else if b.toNat < a.toNat then .gt
      else lexCmp as bs

/-- Model of String.prototype.localeCompare for the ASCII county names the
roll-up sorts: case-insensitive lexicographic order with a code-point
tiebreak. -/
def localeCmp (a b : String) : Ordering :=
  match lexCmp (jsLowerL a.data) (jsLowerL b.data) with
  | .eq => lexCmp a.data b.data
  | o => o

/-- Stable insertion of a roll-up entry into a sorted list under the
locale comparator. -/
def insertRollUp (x : FourWeekRollUp) : List FourWeekRollUp → List FourWeekRollUp
  | [] => [x]
  | y :: r =>
      if localeCmp x.county y.county = .gt then y :: insertRollUp x r else x :: y :: r

/-- Model of Array.prototype.sort with the localeCompare comparator (a
stable sort; county keys are pairwise distinct, so any comparison sort
yields this order). -/
def sortRollUps (l : List FourWeekRollUp) : List FourWeekRollUp :=
  l.foldr insertRollUp []

/-- Embedding of calculateFourWeekRollUp (calculations.ts), with the now
snapshot (the single new Date() the source takes) as a parameter. -/
def calculateFourWeekRollUp (now : Int) (complaints : List ProcessedComplaint) :
    List FourWeekRollUp :=
  let allRecent := complaints.filter (inFourWeekWindow now)
  let valid := filterValidComplaints allRecent
  let m1 := allRecent.foldl (fun acc c => bumpTotals acc (countyOf c) c) []
  let m2 := valid.foldl
    (fun acc c => if meetsCriteria c then bumpCriteria acc (countyOf c) c else acc) m1
  sortRollUps m2

/-! ### Basic structural lemmas about the pipeline -/

lemma detectDuplicatesAux_length (rs : List ProcessedComplaint) :
    ∀ (i : Nat) (seen : List (String × Nat)), (detectDuplicatesAux rs i seen).length = rs.length := by
  induction rs with
  | nil => intro i seen; simp [detectDuplicatesAux]
  | cons r rs ih =>
      intro i seen
      unfold detectDuplicatesAux
      by_cases h : r.isValid
      · simp only [h, if_true]
        cases hm : findKeyMatch seen i (createRowKeys r) <;> simp [ih]
      · simp [h, ih]

lemma detectDuplicates_length (rows : List ProcessedComplaint) :
    (detectDuplicates rows).length = rows.length :=
  detectDuplicatesAux_length rows 0 []

lemma pipelinePass1_length (v : Nat → RowMap → Except String ProcessedComplaint) :
    ∀ (rows : List RowMap) (i : Nat), ((pipelinePass1 v rows i).1).length = rows.length := by
  intro rows
  induction rows with
  | nil => intro i; simp [pipelinePass1]
  | cons row rest ih =>
      intro i
      unfold pipelinePass1
      cases hv : v i row <;> simp [ih]

lemma pipeline_processed_length (v : Nat → RowMap → Except String ProcessedComplaint)
    (rows : List RowMap) :
    (processRowsWithQualityChecksGen v rows).processed.length = rows.length := by
  show (List.zipWith _ _ _).length = _
  rw [List.length_zipWith, detectDuplicates_length, List.length_map,
    pipelinePass1_length]
  simp

/-- C1: for every validator and input list, the pipeline summary satisfies
validRows + invalidRows = totalRows, totalRows is the input length, exactly
one processed record is produced per input row, and validRows counts the
processed records that are valid and not duplicates. -/
theorem pipeline_valid_invalid_partition
    (validate : Nat → RowMap → Except String ProcessedComplaint) (rows : List RowMap) :
    (processRowsWithQualityChecksGen validate rows).summary.validRows +
        (processRowsWithQualityChecksGen validate rows).summary.invalidRows =
      (processRowsWithQualityChecksGen validate rows).summary.totalRows ∧
    (processRowsWithQualityChecksGen validate rows).summary.totalRows = rows.length ∧
    (processRowsWithQualityChecksGen validate rows).processed.length = rows.length ∧
    (processRowsWithQualityChecksGen validate rows).summary.validRows =
      (processRowsWithQualityChecksGen validate rows).processed.countP
        (fun p => p.isValid && !p.isDuplicate) := by
  refine ⟨?_, rfl, pipeline_processed_length validate rows, rfl⟩
  have hlen := pipeline_processed_length validate rows
  have hcount : (processRowsWithQualityChecksGen validate rows).summary.validRows =
      (processRowsWithQualityChecksGen validate rows).processed.countP
        (fun p => p.isValid && !p.isDuplicate) := rfl
  have htot : (processRowsWithQualityChecksGen validate rows).summary.totalRows = rows.length := rfl
  have hinv : (processRowsWithQualityChecksGen validate rows).summary.invalidRows =
      (processRowsWithQualityChecksGen validate rows).processed.length -
        (processRowsWithQualityChecksGen validate rows).summary.validRows := rfl
  rw [htot, hinv, hcount, ← hlen]
  exact Nat.add_sub_cancel' (List.countP_le_length _)

/-! ### C9: disjoint error counters -/

/-- Row predicate of the rowsWithJSONErrors counter: validation succeeded
and some reported issue mentions "json" case-insensitively. -/
def jsonPred (validate : Nat → RowMap → Except String ProcessedComplaint)
    (i : Nat) (row : RowMap) : Bool :=
  match validate i row with
  | .ok p => hasJSONError p
  | .error _ => false

/-- Row predicate of the rowsWithOtherErrors counter: either validation
threw, or the record has a reported issue none of which mentions "json". -/
def otherPred (validate : Nat → RowMap → Except String ProcessedComplaint)
    (i : Nat) (row : RowMap) : Bool :=
  match validate i row with
  | .ok p => recordHasIssue p && !hasJSONError p
  | .error _ => true

/-- Count of rows satisfying an index-aware predicate, starting at a given
index. -/
def countIdx (p : Nat → RowMap → Bool) : List RowMap → Nat → Nat
  | [], _ => 0
  | r :: rs, i => (if p i r then 1 else 0) + countIdx p rs (i + 1)

lemma pipelinePass1_jsonCount (v : Nat → RowMap → Except String ProcessedComplaint) :
    ∀ (rows : List RowMap) (i : Nat),
      (pipelinePass1 v rows i).2.2.1 = countIdx (jsonPred v) rows i := by
  intro rows
  induction rows with
  | nil => intro i; simp [pipelinePass1, countIdx]
  | cons row rest ih =>
      intro i
      unfold pipelinePass1 countIdx
      cases hv : v i row <;> simp [jsonPred, hv, ih]

lemma pipelinePass1_otherCount (v : Nat → RowMap → Except String ProcessedComplaint) :
    ∀ (rows : List RowMap) (i : Nat),
      (pipelinePass1 v rows i).2.2.2 = countIdx (otherPred v) rows i := by
  intro rows
  induction rows with
  | nil => intro i; simp [pipelinePass1, countIdx]
  | cons row rest ih =>
      intro i
      unfold pipelinePass1 countIdx
      cases hv : v i row <;> simp [otherPred, hv, ih, Nat.add_comm]

/-- C9: the JSON-error counter counts exactly the rows whose validation
succeeded with an issue mentioning "json", the other-error counter counts
exactly the rows that threw or have only non-JSON issues, and no row
satisfies both predicates. -/
theorem pipeline_error_counters_disjoint
    (validate : Nat → RowMap → Except String ProcessedComplaint) (rows : List RowMap) :
    (processRowsWithQualityChecksGen validate rows).summary.rowsWithJSONErrors =
        countIdx (jsonPred validate) rows 0 ∧
    (processRowsWithQualityChecksGen validate rows).summary.rowsWithOtherErrors =
        countIdx (otherPred validate) rows 0 ∧
    ∀ (i : Nat) (row : RowMap),
      ¬(jsonPred validate i row = true ∧ otherPred validate i row = true) := by
  refine ⟨pipelinePass1_jsonCount validate rows 0, pipelinePass1_otherCount validate rows 0, ?_⟩
  intro i row ⟨hj, ho⟩
  unfold jsonPred at hj
  unfold otherPred at ho
  cases hv : validate i row with
  | ok p =>
      rw [hv] at hj ho
      simp only [] at hj ho
      simp [hj] at ho
  | error m =>
      rw [hv] at hj
      simp at hj

/-! ### C5: per-row exceptions are isolated -/

lemma pipelinePass1_get (v : Nat → RowMap → Except String ProcessedComplaint) :
    ∀ (rows : List RowMap) (k i : Nat),
      ((pipelinePass1 v rows k).1)[i]? =
        (rows[i]?).map (fun row =>
          match v (k + i) row with
          | .ok p => p
          | .error m => catchRecord row m) := by
  intro rows
  induction rows with
  | nil => intro k i; simp [pipelinePass1]
  | cons row rest ih =>
      intro k i
      unfold pipelinePass1
      cases i with
      | zero => cases hv : v k row <;> simp [hv]
      | succ j =>
          cases hv : v k row <;>
            simpa [hv, Nat.add_assoc, Nat.add_comm 1 j] using ih (k + 1) j

lemma detectDuplicatesAux_invalid_get :
    ∀ (rs : List ProcessedComplaint) (i0 : Nat) (seen : List (String × Nat)) (j : Nat)
      (r : ProcessedComplaint), rs[j]? = some r → r.isValid = false →
      (detectDuplicatesAux rs i0 seen)[j]? = some ⟨false, none⟩ := by
  intro rs
  induction rs with
  | nil => intro i0 seen j r h; simp at h
  | cons x rs ih =>
      intro i0 seen j r hj hr
      unfold detectDuplicatesAux
      cases j with
      | zero =>
          simp at hj
          subst hj
          simp [hr]
      | succ j =>
          simp at hj
          by_cases hx : x.isValid
          · simp only [hx, if_true]
            cases hm : findKeyMatch seen i0 (createRowKeys x) <;>
              simpa using ih _ _ j r hj hr
          · simpa [hx] using ih _ _ j r hj hr

/-- C5: if validating one row throws, the pipeline still emits one record
per input row, and the record of the throwing row is invalid with the single
synthetic error, the remaining rows being processed as usual. -/
theorem pipeline_row_exception_isolated
    (validate : Nat → RowMap → Except String ProcessedComplaint) (rows : List RowMap)
    (i : Nat) (row : RowMap) (msg : String)
    (hrow : rows[i]? = some row) (herr : validate i row = .error msg) :
    (processRowsWithQualityChecksGen validate rows).processed.length = rows.length ∧
    ∃ p, (processRowsWithQualityChecksGen validate rows).processed[i]? = some p ∧
      p.isValid = false ∧ p.errors = some ["Validation failed: " ++ msg] := by
  refine ⟨pipeline_processed_length validate rows, ?_⟩
  have h0 : ((pipelinePass1 validate rows 0).1)[i]? = some (catchRecord row msg) := by
    rw [pipelinePass1_get, hrow]
    simp [herr]
  have h1 : (((pipelinePass1 validate rows 0).1).map normalizePass)[i]? =
      some (normalizePass (catchRecord row msg)) := by
    rw [List.getElem?_map, h0]; rfl
  have hinv : (normalizePass (catchRecord row msg)).isValid = false := rfl
  have h2 : (detectDuplicates (((pipelinePass1 validate rows 0).1).map normalizePass))[i]? =
      some ⟨false, none⟩ :=
    detectDuplicatesAux_invalid_get _ 0 [] i _ h1 hinv
  refine ⟨normalizePass (catchRecord row msg), ?_, rfl, rfl⟩
  show (List.zipWith _ _ _)[i]? = _
  rw [List.getElem?_zipWith, h1, h2]
  rfl

/-- Closed instance of the C5 theorem: a validator that throws on the only
row still yields one invalid record with the synthetic error. -/
theorem pipeline_row_exception_isolated_witness :
    (processRowsWithQualityChecksGen (fun _ _ => .error "boom") [[]]).processed.length = 1 ∧
    ∃ p, (processRowsWithQualityChecksGen (fun _ _ => .error "boom") [[]]).processed[0]? = some p ∧
      p.isValid = false ∧ p.errors = some ["Validation failed: boom"] := by
  have h := pipeline_row_exception_isolated (fun _ _ => .error "boom") [[]] 0 [] "boom" rfl rfl
  simpa using h

/-! ### C6 (amended): normalization assignment and its defaults -/

/-- Amended C6: after the pipeline, every processed record carries exactly
the normalization of its own raw county and of its raw lender-or-plaintiff,
and both default to "Unknown" when those source fields are absent. (The
original claim of unconditional non-emptiness fails: see the
counterexample.) -/
theorem pipeline_normalization_defaults
    (validate : Nat → RowMap → Except String ProcessedComplaint) (rows : List RowMap)
    (i : Nat) (p : ProcessedComplaint)
    (hp : (processRowsWithQualityChecksGen validate rows).processed[i]? = some p) :
    p.normalizedCounty = normalizeCounty (lookupJs p.raw "county") ∧
    p.normalizedLender =
      normalizeLender (jsOr (lookupJs p.raw "lender") (lookupJs p.raw "plaintiff")) ∧
    (lookupJs p.raw "county" = JsValue.vundef → p.normalizedCounty = "Unknown") ∧
    (lookupJs p.raw "lender" = JsValue.vundef → lookupJs p.raw "plaintiff" = JsValue.vundef →
      p.normalizedLender = "Unknown") := by
  obtain ⟨hi, hpi⟩ := List.getElem?_eq_some.mp hp
  have hi' : i < rows.length := by
    have := hi
    rwa [pipeline_processed_length] at this
  have hiL1 : i < (((pipelinePass1 validate rows 0).1).map normalizePass).length := by
    rw [List.length_map, pipelinePass1_length]; exact hi'
  have hiL2 : i <
      (detectDuplicates (((pipelinePass1 validate rows 0).1).map normalizePass)).length := by
    rw [detectDuplicates_length]; exact hiL1
  have hpz : p = (fun a b => if b.isDuplicate then { a with isDuplicate := true } else a)
      ((((pipelinePass1 validate rows 0).1).map normalizePass)[i])
      ((detectDuplicates (((pipelinePass1 validate rows 0).1).map normalizePass))[i]) := by
    rw [← hpi]
    exact List.getElem_zipWith (h := hi)
  have hiL0 : i < ((pipelinePass1 validate rows 0).1).length := by
    rw [pipelinePass1_length]; exact hi'
  have hmap : ((((pipelinePass1 validate rows 0).1).map normalizePass)[i]) =
      normalizePass (((pipelinePass1 validate rows 0).1)[i]) :=
    List.getElem_map normalizePass
  set q := ((pipelinePass1 validate rows 0).1)[i] with hq
  set b := (detectDuplicates (((pipelinePass1 validate rows 0).1).map normalizePass))[i]
    with hb
  have hraw : p.raw = q.raw := by
    rw [hpz, hmap]
    by_cases hd : b.isDuplicate = true <;> simp [hd, normalizePass]
  have hc : p.normalizedCounty = normalizeCounty (lookupJs q.raw "county") := by
    rw [hpz, hmap]
    by_cases hd : b.isDuplicate = true <;> simp [hd, normalizePass]
  have hl : p.normalizedLender =
      normalizeLender (jsOr (lookupJs q.raw "lender") (lookupJs q.raw "plaintiff")) := by
    rw [hpz, hmap]
    by_cases hd : b.isDuplicate = true <;> simp [hd, normalizePass]
  refine ⟨by rw [hc, hraw], by rw [hl, hraw], ?_, ?_⟩
  · intro hcu
    rw [hraw] at hcu
    rw [hc, hcu]
    rfl
  · intro hlu hpu
    rw [hraw] at hlu hpu
    rw [hl, hlu, hpu]
    rfl

/-- Closed instance of the amended C6 theorem: a row with no county, lender
or plaintiff fields gets both normalized names defaulted to "Unknown". -/
theorem pipeline_normalization_defaults_witness :
    (normalizePass (validateRow 0 [])).normalizedCounty = "Unknown" ∧
    (normalizePass (validateRow 0 [])).normalizedLender = "Unknown" := by
  have h := pipeline_normalization_defaults (fun _ r => .ok (validateRow 0 r)) [[]] 0
    (normalizePass (validateRow 0 [])) (by rfl)
  exact ⟨h.2.2.1 rfl, h.2.2.2 rfl rfl⟩

/-- Counterexample to C6 as stated: a present but whitespace-only county
field normalizes to the empty string, so normalizedCounty is not a
non-empty string for every processed record. -/
theorem pipeline_normalized_nonempty_cex :
    ¬(∀ p ∈ (processRowsWithQualityChecks 0 [[("county", JsValue.vstr " ")]]).processed,
        p.normalizedCounty ≠ "" ∧ p.normalizedLender ≠ "") := by
  decide

/-! ### C3: error/warning combination rule of validateRow -/

/-- C3: a validated record is valid exactly when the error-class issue list
is empty, and its errors field holds the error-class issues when any exist,
otherwise the warning-class issues (absent when both lists are empty). -/
theorem validateRow_error_warning_rule (now : Int) (row : RowMap) :
    ((validateRow now row).isValid = true ↔ (rowIssues now row).errors = []) ∧
    (validateRow now row).errors =
      (if (rowIssues now row).errors = [] then
        (if (rowIssues now row).warnings = [] then none else some ((rowIssues now row).warnings))
      else some ((rowIssues now row).errors)) := by
  unfold validateRow
  cases he : (rowIssues now row).errors with
  | nil =>
      cases hw : (rowIssues now row).warnings with
      | nil => simp [he, hw]
      | cons w ws => simp [he, hw]
  | cons e es => simp [he]

/-! ### C4: JSON validation and single repair pass -/

lemma infixOfL_refl_append (p r : List Char) : infixOfL p (p ++ r) = true := by
  cases p with
  | nil =>
      cases r with
      | nil => rfl
      | cons c t => simp [infixOfL, List.isPrefixOf]
  | cons a as =>
      show infixOfL (a :: as) (a :: (as ++ r)) = true
      unfold infixOfL
      have : (a :: as).isPrefixOf (a :: (as ++ r)) = true :=
        List.isPrefixOf_iff_prefix.mpr (by simp)
      simp [this]

lemma jsIncludes_append_right (p r : String) : jsIncludes (p ++ r) p = true := by
  unfold jsIncludes
  rw [show (p ++ r).data = p.data ++ r.data from rfl]
  exact infixOfL_refl_append p.data r.data

lemma jsonErrorDetail_includes (name e t : String) :
    jsIncludes (jsonErrorDetail name e t) ("Invalid JSON in " ++ name) = true := by
  have key : ∀ r : String,
      jsIncludes ("Invalid JSON in " ++ name ++ r) ("Invalid JSON in " ++ name) = true := by
    intro r
    have := jsIncludes_append_right ("Invalid JSON in " ++ name) r
    simpa [String.append_assoc] using this
  unfold jsonErrorDetail
  by_cases hpos : jsIncludes e "position" = true
  · simp only [hpos, if_true]
    cases hm : findPositionNum e.data with
    | none => simpa [String.append_assoc] using key (": " ++ e)
    | some pos =>
        simpa [String.append_assoc] using
          key (": " ++ e ++ (" (near: \"" ++ (⟨jsSubstringL t.data (pos - 20) (min t.length (pos + 20))⟩ : String) ++ "\")"))
  · simp only [hpos, if_false]
    simpa [String.append_assoc] using key (": " ++ e)

/-- C4: for a string field that reaches JSON parsing (it looks like JSON or
has length at least two) and fails direct parsing, validateJSONField accepts
the field with the auto-fixed warning whenever the single repair pass
parses, and otherwise reports an error-class issue whose text carries
"Invalid JSON in" followed by the field name and the parser message. -/
theorem validateJSONField_repair_policy (field name e : String)
    (hreach : looksLikeJSON (jsTrim field) = true ∨ 2 ≤ (jsTrim field).length)
    (hfail : jsonParse (jsTrim field) = .error e) :
    (∀ j, jsonParse (attemptJSONFix (jsTrim field)) = .ok j →
      validateJSONField (JsValue.vstr field) name =
        ⟨true, j, some ("JSON in " ++ name ++ " was malformed but auto-fixed"), true⟩) ∧
    (∀ e2, jsonParse (attemptJSONFix (jsTrim field)) = .error e2 →
      validateJSONField (JsValue.vstr field) name =
        ⟨false, JsValue.vnull, some (jsonErrorDetail name e (jsTrim field)), false⟩ ∧
      jsIncludes (jsonErrorDetail name e (jsTrim field)) ("Invalid JSON in " ++ name) = true) := by
  have hne : ¬(field = "") := by
    intro h
    subst h
    exact absurd hreach (by decide)
  have hskip : (!looksLikeJSON (jsTrim field) && decide ((jsTrim field).length < 2)) = false := by
    rcases hreach with h | h
    · simp [h]
    · simp [Nat.not_lt.mpr h]
  constructor
  · intro j hj
    by_cases hfx : attemptJSONFix (jsTrim field) = ""
    · rw [hfx] at hj
      have hempty : jsonParse "" = .error eofMsg := rfl
      rw [hempty] at hj
      exact Except.noConfusion hj
    · show (if field = "" then _ else _) = _
      rw [if_neg hne]
      simp only [hskip, Bool.false_eq_true, if_false, hfail]
      rw [if_pos hfx]
      simp only [hj]
  · intro e2 he2
    refine ⟨?_, jsonErrorDetail_includes name e (jsTrim field)⟩
    show (if field = "" then _ else _) = _
    rw [if_neg hne]
    simp only [hskip, Bool.false_eq_true, if_false, hfail]
    by_cases hfx : attemptJSONFix (jsTrim field) = ""
    · rw [if_neg (by simp [hfx])]
    · rw [if_pos hfx]
      simp only [he2]

/-- Closed instance of the C4 theorem at the malformed-metadata scenario:
the unterminated string cannot be repaired by brace balancing, so the field
is rejected with an Invalid JSON error and validateRow marks the row
invalid. -/
theorem validateJSONField_repair_policy_witness :
    (validateJSONField (JsValue.vstr "\x7b\"incomplete\": \"json") "metadata").isValid = false ∧
    (validateJSONField (JsValue.vstr "\x7b\"incomplete\": \"json") "metadata").error =
      some "Invalid JSON in metadata: Unexpected end of JSON input" ∧
    (validateRow 0 [("metadata", JsValue.vstr "\x7b\"incomplete\": \"json")]).isValid = false ∧
    ((validateRow 0 [("metadata", JsValue.vstr "\x7b\"incomplete\": \"json")]).errors.getD []).any
      (fun er => jsIncludes er "Invalid JSON") = true := by
  have h := validateJSONField_repair_policy "\x7b\"incomplete\": \"json" "metadata"
    "Unexpected end of JSON input" (by decide) rfl
  obtain ⟨heq, _⟩ := h.2 "Unexpected end of JSON input" rfl
  refine ⟨by rw [heq], by rw [heq]; decide, by decide, by decide⟩

/-! ### C2 and C10: characterization of duplicate detection

The seen-keys registry of detectDuplicates is described by an explicit
recurrence (seenBefore), against which the per-index results are stated. -/

/-- Registry evolution of one iteration of detectDuplicates: invalid rows
and detected duplicates register nothing, other rows register all their
keys. -/
def dupStep (seen : List (String × Nat)) (r : ProcessedComplaint) (i : Nat) :
    List (String × Nat) :=
  if r.isValid then
    match findKeyMatch seen i (createRowKeys r) with
    | some _ => seen
    | none => registerKeys seen i (createRowKeys r)
  else seen

/-- Per-index flag computed by one iteration of detectDuplicates from the
registry state. -/
def dupResult (seen : List (String × Nat)) (r : ProcessedComplaint) (i : Nat) : DupInfo :=
  if r.isValid then
    match findKeyMatch seen i (createRowKeys r) with
    | some j => ⟨true, some j⟩
    | none => ⟨false, none⟩
  else ⟨false, none⟩

/-- Registry state after consuming a given number of records of the list,
starting from an arbitrary index and state. -/
def seenFrom : List ProcessedComplaint → Nat → List (String × Nat) → Nat → List (String × Nat)
  | _, _, seen, 0 => seen
  | [], _, seen, _ + 1 => seen
  | r :: rs, i0, seen, j + 1 => seenFrom rs (i0 + 1) (dupStep seen r i0) j

/-- Registry state of detectDuplicates when it reaches index n. -/
def seenBefore (rows : List ProcessedComplaint) (n : Nat) : List (String × Nat) :=
  seenFrom rows 0 [] n

lemma detectDuplicatesAux_getElem? :
    ∀ (rs : List ProcessedComplaint) (i0 : Nat) (seen : List (String × Nat)) (j : Nat),
      (detectDuplicatesAux rs i0 seen)[j]? =
        (rs[j]?).map (fun r => dupResult (seenFrom rs i0 seen j) r (i0 + j)) := by
  intro rs
  induction rs with
  | nil => intro i0 seen j; simp [detectDuplicatesAux]
  | cons r rs ih =>
      intro i0 seen j
      unfold detectDuplicatesAux
      cases j with
      | zero =>
          by_cases hv : r.isValid
          · simp only [hv, if_true]
            cases hm : findKeyMatch seen i0 (createRowKeys r) <;>
              simp [seenFrom, dupResult, hv, hm]
          · simp [hv, seenFrom, dupResult]
      | succ j =>
          by_cases hv : r.isValid
          · simp only [hv, if_true]
            cases hm : findKeyMatch seen i0 (createRowKeys r) with
            | none =>
                simpa [seenFrom, dupStep, hv, hm, Nat.add_assoc, Nat.add_comm 1 j]
                  using ih (i0 + 1) (registerKeys seen i0 (createRowKeys r)) j
            | some k =>
                simpa [seenFrom, dupStep, hv, hm, Nat.add_assoc, Nat.add_comm 1 j]
                  using ih (i0 + 1) seen j
          · simpa [hv, seenFrom, dupStep, Nat.add_assoc, Nat.add_comm 1 j]
              using ih (i0 + 1) seen j

lemma seenFrom_succ :
    ∀ (rs : List ProcessedComplaint) (i0 : Nat) (seen : List (String × Nat)) (n : Nat),
      seenFrom rs i0 seen (n + 1) =
        (match rs[n]? with
         | some r => dupStep (seenFrom rs i0 seen n) r (i0 + n)
         | none => seenFrom rs i0 seen n) := by
  intro rs
  induction rs with
  | nil => intro i0 seen n; cases n <;> simp [seenFrom]
  | cons r rs ih =>
      intro i0 seen n
      cases n with
      | zero => simp [seenFrom]
      | succ n =>
          show seenFrom rs (i0 + 1) (dupStep seen r i0) (n + 1) = _
          rw [ih]
          cases hn : rs[n]? with
          | none => simp [hn, seenFrom]
          | some r2 => simp [hn, seenFrom, Nat.add_assoc, Nat.add_comm 1 n]

lemma seenBefore_succ (rows : List ProcessedComplaint) (n : Nat) :
    seenBefore rows (n + 1) =
      (match rows[n]? with
       | some r => dupStep (seenBefore rows n) r n
       | none => seenBefore rows n) := by
  have h := seenFrom_succ rows 0 [] n
  simpa [seenBefore] using h

lemma detectDuplicates_getElem? (rows : List ProcessedComplaint) (i : Nat) :
    (detectDuplicates rows)[i]? =
      (rows[i]?).map (fun r => dupResult (seenBefore rows i) r i) := by
  have h := detectDuplicatesAux_getElem? rows 0 [] i
  simpa [detectDuplicates, seenBefore] using h

lemma findKeyMatch_isSome_iff (seen : List (String × Nat)) (i : Nat) :
    ∀ ks : List String,
      (findKeyMatch seen i ks).isSome = true ↔
        ∃ k ∈ ks, k ≠ "" ∧ ∃ j, lookupSeen seen k = some j ∧ j ≠ i := by
  intro ks
  induction ks with
  | nil => simp [findKeyMatch]
  | cons k ks ih =>
      unfold findKeyMatch
      by_cases hk : k = ""
      · simp only [hk]
        simp [ih]
      · simp only [hk, ne_eq, not_false_eq_true, if_true]
        cases hl : lookupSeen seen k with
        | none =>
            rw [ih]
            constructor
            · rintro ⟨k2, hm, hne, j, hj, hji⟩
              exact ⟨k2, List.mem_cons_of_mem k hm, hne, j, hj, hji⟩
            · rintro ⟨k2, hm, hne, j, hj, hji⟩
              rcases List.mem_cons.mp hm with h | h
              · subst h
                rw [hl] at hj
                exact absurd hj (by simp)
              · exact ⟨k2, h, hne, j, hj, hji⟩
        | some j0 =>
            dsimp only
            by_cases hji : j0 ≠ i
            · rw [if_pos hji]
              simp only [Option.isSome_some, true_iff]
              exact ⟨k, List.mem_cons_self k ks, hk, j0, hl, hji⟩
            · push_neg at hji
              subst hji
              rw [if_neg (by simp)]
              rw [ih]
              constructor
              · rintro ⟨k2, hm, hne, j, hj, hji⟩
                exact ⟨k2, List.mem_cons_of_mem k hm, hne, j, hj, hji⟩
              · rintro ⟨k2, hm, hne, j, hj, hji⟩
                rcases List.mem_cons.mp hm with h | h
                · subst h
                  rw [hl] at hj
                  cases hj
                  exact absurd rfl hji
                · exact ⟨k2, h, hne, j, hj, hji⟩

lemma findKeyMatch_eq_some (seen : List (String × Nat)) (i j : Nat) :
    ∀ ks : List String, findKeyMatch seen i ks = some j →
      ∃ k ∈ ks, k ≠ "" ∧ lookupSeen seen k = some j ∧ j ≠ i := by
  intro ks
  induction ks with
  | nil => intro h; simp [findKeyMatch] at h
  | cons k ks ih =>
      intro h
      unfold findKeyMatch at h
      by_cases hk : k = ""
      · simp only [hk, ne_eq, not_true_eq_false, if_false] at h
        obtain ⟨k2, hm, rest⟩ := ih h
        exact ⟨k2, List.mem_cons_of_mem k hm, rest⟩
      · simp only [hk, ne_eq, not_false_eq_true, if_true] at h
        cases hl : lookupSeen seen k with
        | none =>
            rw [hl] at h
            obtain ⟨k2, hm, rest⟩ := ih h
            exact ⟨k2, List.mem_cons_of_mem k hm, rest⟩
        | some j0 =>
            rw [hl] at h
            dsimp only at h
            by_cases hji : j0 ≠ i
            · rw [if_pos hji] at h
              cases h
              exact ⟨k, List.mem_cons_self k ks, hk, hl, hji⟩
            · push_neg at hji
              rw [if_neg (by simp [hji])] at h
              obtain ⟨k2, hm, rest⟩ := ih h
              exact ⟨k2, List.mem_cons_of_mem k hm, rest⟩

lemma lookupSeen_append_some (m : List (String × Nat)) (e : String × Nat) (k : String)
    (j : Nat) (h : lookupSeen m k = some j) : lookupSeen (m ++ [e]) k = some j := by
  unfold lookupSeen at h ⊢
  rw [List.find?_append]
  cases hf : List.find? (fun x => x.1 = k) m with
  | none => rw [hf] at h; simp at h
  | some x => rw [hf] at h; simp [Option.or, h]

lemma lookupSeen_append_none (m : List (String × Nat)) (e : String × Nat) (k : String)
    (h : lookupSeen (m ++ [e]) k = none) : lookupSeen m k = none := by
  unfold lookupSeen at h ⊢
  rw [List.find?_append] at h
  cases hf : List.find? (fun x => x.1 = k) m with
  | none => rfl
  | some x => rw [hf] at h; simp [Option.or] at h

lemma lookupSeen_registerKeys_of_some (i : Nat) :
    ∀ (ks : List String) (m : List (String × Nat)) (k : String) (j : Nat),
      lookupSeen m k = some j → lookupSeen (registerKeys m i ks) k = some j := by
  intro ks
  induction ks with
  | nil => intro m k j h; exact h
  | cons k2 ks ih =>
      intro m k j h
      unfold registerKeys
      simp only [List.foldl_cons]
      by_cases hc : (k2 ≠ "" && (lookupSeen m k2).isNone) = true
      · rw [if_pos hc]
        exact ih (m ++ [(k2, i)]) k j (lookupSeen_append_some m (k2, i) k j h)
      · rw [if_neg hc]
        exact ih m k j h

lemma lookupSeen_append_single (m : List (String × Nat)) (k2 : String) (i : Nat)
    (k : String) (j : Nat) (h : lookupSeen (m ++ [(k2, i)]) k = some j) :
    lookupSeen m k = some j ∨ (k = k2 ∧ j = i ∧ lookupSeen m k = none) := by
  unfold lookupSeen at h ⊢
  rw [List.find?_append] at h
  cases hf : List.find? (fun x => x.1 = k) m with
  | some x =>
      rw [hf] at h
      left
      simpa using h
  | none =>
      rw [hf] at h
      right
      by_cases hd : k2 = k
      · subst hd
        simp only [Option.none_or, List.find?] at h
        simp at h
        exact ⟨rfl, h.symm, rfl⟩
      · simp [List.find?, hd] at h

lemma lookupSeen_registerKeys_cases (i : Nat) :
    ∀ (ks : List String) (m : List (String × Nat)) (k : String) (j : Nat),
      lookupSeen (registerKeys m i ks) k = some j →
      lookupSeen m k = some j ∨ (j = i ∧ k ∈ ks ∧ k ≠ "" ∧ lookupSeen m k = none) := by
  intro ks
  induction ks with
  | nil => intro m k j h; exact Or.inl h
  | cons k2 ks ih =>
      intro m k j h
      unfold registerKeys at h
      simp only [List.foldl_cons] at h
      by_cases hc : (k2 ≠ "" && (lookupSeen m k2).isNone) = true
      · rw [if_pos hc] at h
        rcases ih (m ++ [(k2, i)]) k j h with h2 | h2
        · rcases lookupSeen_append_single m k2 i k j h2 with h3 | h3
          · exact Or.inl h3
          · obtain ⟨hkk, hji, hnone⟩ := h3
            rw [Bool.and_eq_true] at hc
            have hk2 : k2 ≠ "" := of_decide_eq_true hc.1
            exact Or.inr ⟨hji, by rw [hkk]; exact List.mem_cons_self k2 ks,
              by rw [hkk]; exact hk2, hnone⟩
        · exact Or.inr ⟨h2.1, List.mem_cons_of_mem k2 h2.2.1, h2.2.2.1,
            lookupSeen_append_none m (k2, i) k h2.2.2.2⟩
      · rw [if_neg hc] at h
        rcases ih m k j h with h2 | h2
        · exact Or.inl h2
        · exact Or.inr ⟨h2.1, List.mem_cons_of_mem k2 h2.2.1, h2.2.2⟩

/-- Registry invariant: every registered key points at an earlier record
that is valid and was itself not flagged a duplicate. -/
lemma seenBefore_inv (rows : List ProcessedComplaint) :
    ∀ (n : Nat) (k : String) (j : Nat), lookupSeen (seenBefore rows n) k = some j →
      j < n ∧ ∃ r0, rows[j]? = some r0 ∧ r0.isValid = true ∧
        findKeyMatch (seenBefore rows j) j (createRowKeys r0) = none := by
  intro n
  induction n with
  | zero =>
      intro k j h
      simp [seenBefore, seenFrom, lookupSeen] at h
  | succ n ih =>
      intro k j h
      rw [seenBefore_succ] at h
      cases hr : rows[n]? with
      | none =>
          rw [hr] at h
          obtain ⟨h1, h2⟩ := ih k j h
          exact ⟨Nat.lt_succ_of_lt h1, h2⟩
      | some r =>
          rw [hr] at h
          dsimp only at h
          unfold dupStep at h
          by_cases hv : r.isValid
          · rw [if_pos hv] at h
            cases hm : findKeyMatch (seenBefore rows n) n (createRowKeys r) with
            | some k0 =>
                rw [hm] at h
                obtain ⟨h1, h2⟩ := ih k j h
                exact ⟨Nat.lt_succ_of_lt h1, h2⟩
            | none =>
                rw [hm] at h
                rcases lookupSeen_registerKeys_cases n (createRowKeys r) (seenBefore rows n) k j h
                  with h2 | h2
                · obtain ⟨h1, h3⟩ := ih k j h2
                  exact ⟨Nat.lt_succ_of_lt h1, h3⟩
                · obtain ⟨hji, _, _, _⟩ := h2
                  subst hji
                  exact ⟨Nat.lt_succ_self _, r, hr, hv, hm⟩
          · rw [if_neg hv] at h
            obtain ⟨h1, h2⟩ := ih k j h
            exact ⟨Nat.lt_succ_of_lt h1, h2⟩

/-- C2: behaviour of detectDuplicates at every index, stated against the
registry recurrence seenBefore. An invalid record is marked non-duplicate
and registers nothing; a valid record is flagged a duplicate exactly when
one of its four keys is nonempty and already registered by an earlier
record, duplicateOf is the registration index of the first matching key in
strategy order, a flagged record registers nothing, and a non-flagged valid
record registers all its keys without overwriting any existing
registration. -/
theorem detectDuplicates_matching_policy (rows : List ProcessedComplaint) (i : Nat)
    (r : ProcessedComplaint) (hr : rows[i]? = some r) :
    ∃ d, (detectDuplicates rows)[i]? = some d ∧
      (r.isValid = false → d = ⟨false, none⟩ ∧ seenBefore rows (i + 1) = seenBefore rows i) ∧
      (r.isValid = true →
        (d.isDuplicate = true ↔
          ∃ k ∈ createRowKeys r, k ≠ "" ∧
            ∃ j, lookupSeen (seenBefore rows i) k = some j ∧ j < i) ∧
        d.duplicateOf = findKeyMatch (seenBefore rows i) i (createRowKeys r) ∧
        (d.isDuplicate = false →
          seenBefore rows (i + 1) = registerKeys (seenBefore rows i) i (createRowKeys r) ∧
          ∀ (k : String) (j : Nat), lookupSeen (seenBefore rows i) k = some j →
            lookupSeen (seenBefore rows (i + 1)) k = some j) ∧
        (d.isDuplicate = true → seenBefore rows (i + 1) = seenBefore rows i)) := by
  have hd : (detectDuplicates rows)[i]? = some (dupResult (seenBefore rows i) r i) := by
    rw [detectDuplicates_getElem?, hr]
    rfl
  refine ⟨dupResult (seenBefore rows i) r i, hd, ?_, ?_⟩
  · intro hv
    refine ⟨by simp [dupResult, hv], ?_⟩
    rw [seenBefore_succ, hr]
    dsimp only
    unfold dupStep
    rw [if_neg (by simp [hv])]
  · intro hv
    have hsucc : seenBefore rows (i + 1) = dupStep (seenBefore rows i) r i := by
      rw [seenBefore_succ, hr]
    cases hm : findKeyMatch (seenBefore rows i) i (createRowKeys r) with
    | none =>
        have hdr : dupResult (seenBefore rows i) r i = ⟨false, none⟩ := by
          unfold dupResult
          rw [if_pos hv, hm]
        rw [hdr]
        refine ⟨?_, rfl, ?_, ?_⟩
        · simp only [Bool.false_eq_true, false_iff]
          rintro ⟨k, hkm, hke, j, hj, hji⟩
          have : (findKeyMatch (seenBefore rows i) i (createRowKeys r)).isSome = true :=
            (findKeyMatch_isSome_iff (seenBefore rows i) i (createRowKeys r)).mpr
              ⟨k, hkm, hke, j, hj, Nat.ne_of_lt hji⟩
          rw [hm] at this
          exact Bool.false_ne_true this
        · intro _
          constructor
          · rw [hsucc]
            unfold dupStep
            rw [if_pos hv, hm]
          · intro k j hk
            rw [hsucc]
            unfold dupStep
            rw [if_pos hv, hm]
            exact lookupSeen_registerKeys_of_some i (createRowKeys r) (seenBefore rows i) k j hk
        · intro hcontra
          exact absurd hcontra (by simp)
    | some j0 =>
        have hdr : dupResult (seenBefore rows i) r i = ⟨true, some j0⟩ := by
          unfold dupResult
          rw [if_pos hv, hm]
        rw [hdr]
        obtain ⟨k, hkm, hke, hkl, hki⟩ :=
          findKeyMatch_eq_some (seenBefore rows i) i j0 (createRowKeys r) hm
        have hlt : j0 < i := (seenBefore_inv rows i k j0 hkl).1
        refine ⟨?_, rfl, ?_, ?_⟩
        · simp only [true_iff]
          exact ⟨k, hkm, hke, j0, hkl, hlt⟩
        · intro hcontra
          exact absurd hcontra (by simp)
        · intro _
          rw [hsucc]
          unfold dupStep
          rw [if_pos hv, hm]

/-- Valid record used by the closed instance of the C2 theorem. -/
def dupWitnessRow : ProcessedComplaint :=
  { raw := [("propertyAddress", JsValue.vstr "123 Main St"), ("county", JsValue.vstr "Broward"),
      ("lender", JsValue.vstr "X Bank")],
    upb := JsValue.vnum 1000,
    complaintDate := JsValue.vdate (some 0),
    isValid := true,
    errors := none,
    normalizedCounty := "Broward",
    normalizedLender := "X Bank",
    isDuplicate := false }

/-- Closed instance of the C2 theorem: the second of two identical valid
records is flagged as a duplicate of the first. -/
theorem detectDuplicates_matching_policy_witness :
    ∃ d, (detectDuplicates [dupWitnessRow, dupWitnessRow])[1]? = some d ∧
      d.isDuplicate = true ∧ d.duplicateOf = some 0 := by
  obtain ⟨d, hd, _, hvalid⟩ :=
    detectDuplicates_matching_policy [dupWitnessRow, dupWitnessRow] 1 dupWitnessRow rfl
  obtain ⟨hiff, hdof, _, _⟩ := hvalid rfl
  refine ⟨d, hd, ?_, ?_⟩
  · rw [hiff]
    refine ⟨(createRowKeys dupWitnessRow).headI, by decide, by decide, 0, by decide, by decide⟩
  · rw [hdof]
    decide

/-- C10: every record flagged as a duplicate carries a duplicateOf index
that is strictly smaller than its own index and designates a record that is
valid and itself not flagged as a duplicate. -/
theorem detectDuplicates_duplicateOf_wellformed (rows : List ProcessedComplaint) (i : Nat)
    (d : DupInfo) (hd : (detectDuplicates rows)[i]? = some d) (hdup : d.isDuplicate = true) :
    ∃ j, d.duplicateOf = some j ∧ j < i ∧
      ∃ r0, rows[j]? = some r0 ∧ r0.isValid = true ∧
        (detectDuplicates rows)[j]? = some ⟨false, none⟩ := by
  rw [detectDuplicates_getElem?] at hd
  cases hr : rows[i]? with
  | none => rw [hr] at hd; simp at hd
  | some r =>
      rw [hr] at hd
      simp at hd
      by_cases hv : r.isValid
      · cases hm : findKeyMatch (seenBefore rows i) i (createRowKeys r) with
        | none =>
            rw [← hd] at hdup
            unfold dupResult at hdup
            rw [if_pos hv, hm] at hdup
            exact absurd hdup (by simp)
        | some j0 =>
            have hdr : d = ⟨true, some j0⟩ := by
              rw [← hd]
              unfold dupResult
              rw [if_pos hv, hm]
            obtain ⟨k, hkm, hke, hkl, hki⟩ :=
              findKeyMatch_eq_some (seenBefore rows i) i j0 (createRowKeys r) hm
            obtain ⟨hlt, r0, hr0, hv0, hm0⟩ := seenBefore_inv rows i k j0 hkl
            refine ⟨j0, by rw [hdr], hlt, r0, hr0, hv0, ?_⟩
            rw [detectDuplicates_getElem?, hr0]
            show some (dupResult (seenBefore rows j0) r0 j0) = _
            unfold dupResult
            rw [if_pos hv0, hm0]
      · rw [← hd] at hdup
        unfold dupResult at hdup
        rw [if_neg (by simp [hv])] at hdup
        exact absurd hdup (by simp)

/-- Valid record used by the closed instance of the C10 theorem. -/
def dupOriginWitnessRow : ProcessedComplaint :=
  { raw := [("propertyAddress", JsValue.vstr "9 Oak Ave"), ("county", JsValue.vstr "Orange"),
      ("lender", JsValue.vstr "Y Bank")],
    upb := JsValue.vnum 500,
    complaintDate := JsValue.vdate (some 0),
    isValid := true,
    errors := none,
    normalizedCounty := "Orange",
    normalizedLender := "Y Bank",
    isDuplicate := false }

/-- Closed instance of the C10 theorem on two identical valid records. -/
theorem detectDuplicates_duplicateOf_wellformed_witness :
    ∃ j, (DupInfo.mk true (some 0)).duplicateOf = some j ∧ j < 1 ∧
      ∃ r0, [dupOriginWitnessRow, dupOriginWitnessRow][j]? = some r0 ∧ r0.isValid = true ∧
        (detectDuplicates [dupOriginWitnessRow, dupOriginWitnessRow])[j]? =
          some ⟨false, none⟩ := by
  have hd : (detectDuplicates [dupOriginWitnessRow, dupOriginWitnessRow])[1]? =
      some ⟨true, some 0⟩ := by decide
  exact detectDuplicates_duplicateOf_wellformed [dupOriginWitnessRow, dupOriginWitnessRow]
    1 ⟨true, some 0⟩ hd rfl

/-! ### C7: idempotence of normalizeCounty -/

/-- County names and common variants over which the amended idempotence
claim is verified: all 67 Florida county names, Miami-Dade and state-suffix
variants, and the New York abbreviations handled by the function. -/
def countyNameSamples : List String :=
  ["Alachua", "Baker", "Bay", "Bradford", "Brevard", "Broward", "Calhoun",
   "Charlotte", "Citrus", "Clay", "Collier", "Columbia", "DeSoto", "Dixie",
   "Duval", "Escambia", "Flagler", "Franklin", "Gadsden", "Gilchrist",
   "Glades", "Gulf", "Hamilton", "Hardee", "Hendry", "Hernando", "Highlands",
   "Hillsborough", "Holmes", "Indian River", "Jackson", "Jefferson",
   "Lafayette", "Lake", "Lee", "Leon", "Levy", "Liberty", "Madison",
   "Manatee", "Marion", "Martin", "Miami-Dade", "Monroe", "Nassau",
   "Okaloosa", "Okeechobee", "Orange", "Osceola", "Palm Beach", "Pasco",
   "Pinellas", "Polk", "Putnam", "Santa Rosa", "Sarasota", "Seminole",
   "Sumter", "Suwannee", "Taylor", "Union", "Volusia", "Wakulla", "Walton",
   "Washington", "Saint Johns", "Saint Lucie",
   "Miami Dade", "Dade", "miami dade county", "Broward County",
   "Palm Beach County", "Orange, FL", "broward, florida", "NYC", "ny",
   "New York City", "new york"]

/-- Counterexample to C7 as stated: on the county-shaped string
"North Miami Dade" (capitalized words, like "Palm Beach"), normalizeCounty
is not idempotent — the Miami-Dade fixup introduces a hyphen next to the
remaining space, and the second pass then joins every word with hyphens. -/
theorem normalizeCounty_not_idempotent_cex :
    normalizeCountyStr (normalizeCountyStr "North Miami Dade") ≠
      normalizeCountyStr "North Miami Dade" ∧
    normalizeCountyStr "North Miami Dade" = "North Miami-Dade" ∧
    normalizeCountyStr (normalizeCountyStr "North Miami Dade") = "North-Miami-Dade" := by
  refine ⟨?_, by decide, by decide⟩
  decide

/-- Amended C7: normalizeCounty is idempotent on county names and their
common variants (verified over all 67 Florida counties, suffix and
state-qualifier variants, and the New York forms); it is not idempotent on
every county-shaped string (see the counterexample). -/
theorem normalizeCounty_idempotent_on_county_names :
    countyNameSamples.all
      (fun s => normalizeCountyStr (normalizeCountyStr s) = normalizeCountyStr s) = true := by
  decide

/-! ### C8: characterization of the four-week roll-up -/

/-- Numeric value of a upb field (zero for the non-numeric values the
summation model ignores). -/
def upbNum : JsValue → ℚ
  | JsValue.vnum q => q
  | _ => 0

/-- Sum of the upb values of a list of records, accumulated in list order
as the roll-up does. -/
def sumUPB (xs : List ProcessedComplaint) : ℚ :=
  xs.foldl (fun t x => addUPBVal t x.upb) 0

/-- First-occurrence deduplication of a list of county names. -/
def dedupFirst : List String → List String
  | [] => []
  | x :: l => x :: dedupFirst (l.filter (fun y => y ≠ x))
termination_by l => l.length
decreasing_by
  simp only [List.length_cons]
  exact Nat.lt_succ_of_le (List.length_filter_le _ _)

/-- Roll-up row of one county as the amended claim describes it: the total
count is over every window record of the county; the total UPB sums the
upb of the county's window records that are valid (duplicates included)
and have a truthy upb; the criteria counters run over the valid,
non-duplicate, criteria-meeting subset. -/
def rollUpSpecEntry (win : List ProcessedComplaint) (ct : String) : FourWeekRollUp :=
  { county := ct,
    totalComplaints := (win.filter (fun x => countyOf x = ct)).length,
    totalUPB :=
      sumUPB ((win.filter (fun x => countyOf x = ct)).filter
        (fun x => x.isValid && truthy x.upb)),
    totalMeetsCriteria :=
      ((filterValidComplaints win).filter
        (fun x => meetsCriteria x && countyOf x = ct)).length,
    totalUPBMeetsCriteria :=
      sumUPB (((filterValidComplaints win).filter
        (fun x => meetsCriteria x && countyOf x = ct)).filter
        (fun x => truthy x.upb)) }

/-- Roll-up rows the amended claim predicts, one per distinct county of the
window records in first-occurrence order (the sort is applied on top). -/
def rollUpSpecGroups (now : Int) (cs : List ProcessedComplaint) : List FourWeekRollUp :=
  let win := cs.filter (inFourWeekWindow now)
  (dedupFirst (win.map countyOf)).map (rollUpSpecEntry win)

lemma addUPBVal_eq (t : ℚ) (v : JsValue) : addUPBVal t v = t + upbNum v := by
  cases v <;> simp [addUPBVal, upbNum]

lemma sumUPB_foldl (ys : List ProcessedComplaint) :
    ∀ a : ℚ, ys.foldl (fun t x => addUPBVal t x.upb) a = a + sumUPB ys := by
  induction ys with
  | nil => intro a; simp [sumUPB]
  | cons y ys ih =>
      intro a
      show ys.foldl _ (addUPBVal a y.upb) = _
      rw [ih (addUPBVal a y.upb)]
      have h2 : sumUPB (y :: ys) = addUPBVal 0 y.upb + sumUPB ys := by
        show ys.foldl _ (addUPBVal 0 y.upb) = _
        rw [ih (addUPBVal 0 y.upb)]
      rw [h2, addUPBVal_eq, addUPBVal_eq]
      ring

lemma sumUPB_cons (y : ProcessedComplaint) (ys : List ProcessedComplaint) :
    sumUPB (y :: ys) = upbNum y.upb + sumUPB ys := by
  show ys.foldl _ (addUPBVal 0 y.upb) = _
  rw [sumUPB_foldl, addUPBVal_eq]
  ring

/-- Aggregate contribution of a record batch to a county entry in the
total-count pass. -/
def pass1Add (e : FourWeekRollUp) (xs : List ProcessedComplaint) : FourWeekRollUp :=
  { e with
    totalComplaints := e.totalComplaints + xs.length,
    totalUPB := e.totalUPB + sumUPB (xs.filter (fun c => c.isValid && truthy c.upb)) }

/-- Aggregate contribution of a record batch to a county entry in the
criteria pass. -/
def pass2Add (e : FourWeekRollUp) (xs : List ProcessedComplaint) : FourWeekRollUp :=
  { e with
    totalMeetsCriteria := e.totalMeetsCriteria + xs.length,
    totalUPBMeetsCriteria :=
      e.totalUPBMeetsCriteria + sumUPB (xs.filter (fun c => truthy c.upb)) }

lemma pass1Add_nil (e : FourWeekRollUp) : pass1Add e [] = e := by
  cases e
  simp [pass1Add, sumUPB]

lemma pass2Add_nil (e : FourWeekRollUp) : pass2Add e [] = e := by
  cases e
  simp [pass2Add, sumUPB]

lemma pass1Add_cons (e : FourWeekRollUp) (c : ProcessedComplaint)
    (xs : List ProcessedComplaint) :
    pass1Add e (c :: xs) = pass1Add (bump1upd e c) xs := by
  cases e
  unfold pass1Add bump1upd
  simp only [List.filter_cons, List.length_cons, FourWeekRollUp.mk.injEq]
  by_cases hc : (c.isValid && truthy c.upb) = true
  · simp only [hc, if_true, sumUPB_cons, addUPBVal_eq]
    exact ⟨trivial, by omega, by ring, trivial, trivial⟩
  · rw [Bool.not_eq_true] at hc
    simp only [hc, Bool.false_eq_true, if_false]
    exact ⟨trivial, by omega, trivial, trivial, trivial⟩

lemma pass2Add_cons (e : FourWeekRollUp) (c : ProcessedComplaint)
    (xs : List ProcessedComplaint) :
    pass2Add e (c :: xs) = pass2Add (bump2upd e c) xs := by
  cases e
  unfold pass2Add bump2upd
  simp only [List.filter_cons, List.length_cons, FourWeekRollUp.mk.injEq]
  by_cases hc : truthy c.upb = true
  · simp only [hc, if_true, sumUPB_cons, addUPBVal_eq]
    exact ⟨trivial, trivial, trivial, by omega, by ring⟩
  · rw [Bool.not_eq_true] at hc
    simp only [hc, Bool.false_eq_true, if_false]
    exact ⟨trivial, trivial, trivial, by omega, trivial⟩

lemma bump1upd_county (e : FourWeekRollUp) (c : ProcessedComplaint) :
    (bump1upd e c).county = e.county := rfl

lemma bump2upd_county (e : FourWeekRollUp) (c : ProcessedComplaint) :
    (bump2upd e c).county = e.county := rfl

lemma updateRollUp_county_map (ct : String) (f : FourWeekRollUp → FourWeekRollUp)
    (hf : ∀ e, (f e).county = e.county) :
    ∀ l : List FourWeekRollUp, (updateRollUp ct f l).map (·.county) = l.map (·.county) := by
  intro l
  induction l with
  | nil => rfl
  | cons e l ih =>
      unfold updateRollUp
      by_cases he : e.county = ct
      · rw [if_pos he]
        simp [hf]
      · rw [if_neg he]
        simp [ih]

lemma updateRollUp_any (ct : String) (f : FourWeekRollUp → FourWeekRollUp)
    (hf : ∀ e, (f e).county = e.county) (x : String) (l : List FourWeekRollUp) :
    (updateRollUp ct f l).any (fun e => e.county = x) = l.any (fun e => e.county = x) := by
  induction l with
  | nil => rfl
  | cons e l ih =>
      unfold updateRollUp
      by_cases he : e.county = ct
      · rw [if_pos he]
        simp [hf]
      · rw [if_neg he]
        simp [ih]

lemma updateRollUp_append_not_mem (ct : String) (f : FourWeekRollUp → FourWeekRollUp)
    (l : List FourWeekRollUp) (e : FourWeekRollUp)
    (h : l.any (fun x => x.county = ct) = false) (hect : e.county = ct) :
    updateRollUp ct f (l ++ [e]) = l ++ [f e] := by
  induction l with
  | nil =>
      unfold updateRollUp
      simp [hect]
  | cons x l ih =>
      simp only [List.any_cons, Bool.or_eq_false_iff] at h
      rw [List.cons_append]
      unfold updateRollUp
      rw [if_neg (by simpa using h.1)]
      simp only [List.cons_append, List.cons.injEq]
      exact ⟨trivial, ih h.2⟩

lemma dedupFirst_subset : ∀ (l : List String) (x : String), x ∈ dedupFirst l → x ∈ l := by
  intro l
  induction l using dedupFirst.induct with
  | case1 => intro x h; simp [dedupFirst] at h
  | case2 y l ih =>
      intro x h
      rw [dedupFirst] at h
      rcases List.mem_cons.mp h with h1 | h1
      · exact h1 ▸ List.mem_cons_self y _
      · exact List.mem_cons_of_mem y (List.mem_of_mem_filter (ih x h1))

lemma dedupFirst_nodup : ∀ l : List String, (dedupFirst l).Nodup := by
  intro l
  induction l using dedupFirst.induct with
  | case1 => simp [dedupFirst]
  | case2 y l ih =>
      rw [dedupFirst]
      refine List.nodup_cons.mpr ⟨?_, ih⟩
      intro hmem
      have := dedupFirst_subset _ _ hmem
      have := List.of_mem_filter this
      simp at this

lemma map_pass1_update (c : ProcessedComplaint) (ws : List ProcessedComplaint) :
    ∀ acc : List FourWeekRollUp, ((acc.map (·.county)).Nodup) →
      (updateRollUp (countyOf c) (fun e => bump1upd e c) acc).map
          (fun e => pass1Add e (ws.filter (fun x => countyOf x = e.county))) =
        acc.map (fun e => pass1Add e ((c :: ws).filter (fun x => countyOf x = e.county))) := by
  intro acc
  induction acc with
  | nil => intro _; rfl
  | cons e l ih =>
      intro hnd
      simp only [List.map_cons, List.nodup_cons] at hnd
      unfold updateRollUp
      by_cases he : e.county = countyOf c
      · rw [if_pos he]
        simp only [List.map_cons, List.cons.injEq]
        constructor
        · show pass1Add (bump1upd e c) (ws.filter (fun x => countyOf x = e.county)) = _
          rw [List.filter_cons_of_pos (by simp [he]), pass1Add_cons]
        · apply List.map_congr_left
          intro a ha
          have hane : countyOf c ≠ a.county := by
            rw [← he]
            intro hcontra
            exact hnd.1 (hcontra ▸ List.mem_map_of_mem (·.county) ha)
          rw [List.filter_cons_of_neg (by simp [hane])]
      · rw [if_neg he]
        simp only [List.map_cons, List.cons.injEq]
        constructor
        · rw [List.filter_cons_of_neg (by intro h2; exact he (of_decide_eq_true h2).symm)]
        · exact ih hnd.2

lemma map_pass2_update (c : ProcessedComplaint) (vs : List ProcessedComplaint)
    (hm : meetsCriteria c = true) :
    ∀ acc : List FourWeekRollUp, ((acc.map (·.county)).Nodup) →
      (updateRollUp (countyOf c) (fun e => bump2upd e c) acc).map
          (fun e => pass2Add e
            (vs.filter (fun x => meetsCriteria x && countyOf x = e.county))) =
        acc.map (fun e => pass2Add e
          ((c :: vs).filter (fun x => meetsCriteria x && countyOf x = e.county))) := by
  intro acc
  induction acc with
  | nil => intro _; rfl
  | cons e l ih =>
      intro hnd
      simp only [List.map_cons, List.nodup_cons] at hnd
      unfold updateRollUp
      by_cases he : e.county = countyOf c
      · rw [if_pos he]
        simp only [List.map_cons, List.cons.injEq]
        constructor
        · show pass2Add (bump2upd e c)
              (vs.filter (fun x => meetsCriteria x && countyOf x = e.county)) = _
          rw [List.filter_cons_of_pos (by simp [hm, ← he]), pass2Add_cons]
        · apply List.map_congr_left
          intro a ha
          have hane : countyOf c ≠ a.county := by
            rw [← he]
            intro hcontra
            exact hnd.1 (hcontra ▸ List.mem_map_of_mem (·.county) ha)
          rw [List.filter_cons_of_neg (by simp [hane])]
      · rw [if_neg he]
        simp only [List.map_cons, List.cons.injEq]
        constructor
        · rw [List.filter_cons_of_neg
            (by simp only [Bool.and_eq_true, decide_eq_true_eq, not_and]
                exact fun _ h2 => he h2.symm)]
        · exact ih hnd.2

/-- Criteria-pass characterization: folding the guarded bumpCriteria step
over a record list updates every entry of a county-distinct accumulator by
the aggregate of its matching criteria-meeting records. -/
lemma pass2_fold_char :
    ∀ (vs : List ProcessedComplaint) (acc : List FourWeekRollUp),
      ((acc.map (·.county)).Nodup) →
      vs.foldl (fun a c => if meetsCriteria c then bumpCriteria a (countyOf c) c else a) acc =
        acc.map (fun e =>
          pass2Add e (vs.filter (fun x => meetsCriteria x && countyOf x = e.county))) := by
  intro vs
  induction vs with
  | nil =>
      intro acc _
      simp only [List.foldl_nil, List.filter_nil, pass2Add_nil]
      exact (List.map_id' acc).symm
  | cons c vs ih =>
      intro acc hnd
      simp only [List.foldl_cons]
      by_cases hm : meetsCriteria c = true
      · rw [if_pos hm]
        have hnd2 : ((bumpCriteria acc (countyOf c) c).map (·.county)).Nodup := by
          unfold bumpCriteria
          rw [updateRollUp_county_map (countyOf c) (fun e => bump2upd e c) (fun e => rfl) acc]
          exact hnd
        rw [ih _ hnd2]
        unfold bumpCriteria
        rw [map_pass2_update c vs hm acc hnd]
      · rw [if_neg (by simp [hm])]
        rw [ih _ hnd]
        apply List.map_congr_left
        intro a _
        congr 1
        rw [List.filter_cons]
        simp [hm]

lemma map_countyOf_filter_and (p : ProcessedComplaint → Bool) (ct : String) :
    ∀ ws : List ProcessedComplaint,
      ((ws.filter (fun x => p x && !(countyOf x = ct))).map countyOf) =
        ((ws.filter p).map countyOf).filter (fun y => !(y = ct)) := by
  intro ws
  induction ws with
  | nil => rfl
  | cons c ws ih =>
      by_cases hp : p c = true
      · by_cases hc : countyOf c = ct
        · rw [List.filter_cons_of_neg (by simp [hp, hc]), List.filter_cons_of_pos hp]
          rw [List.map_cons, List.filter_cons_of_neg (by simp [hc])]
          exact ih
        · rw [List.filter_cons_of_pos (by simp [hp, hc]), List.filter_cons_of_pos hp]
          rw [List.map_cons, List.map_cons, List.filter_cons_of_pos (by simp [hc])]
          rw [ih]
      · rw [List.filter_cons_of_neg (by simp [hp]), List.filter_cons_of_neg (by simp [hp])]
        exact ih

/-- Total-pass characterization: folding bumpTotals over a record batch
extends a county-distinct accumulator by the per-county aggregates, new
counties appearing in first-occurrence order. -/
lemma pass1_fold_char :
    ∀ (ws : List ProcessedComplaint) (acc : List FourWeekRollUp),
      ((acc.map (·.county)).Nodup) →
      ws.foldl (fun a c => bumpTotals a (countyOf c) c) acc =
        acc.map (fun e => pass1Add e (ws.filter (fun x => countyOf x = e.county))) ++
          (dedupFirst ((ws.filter
              (fun c => !acc.any (fun e => e.county = countyOf c))).map countyOf)).map
            (fun ct => pass1Add ⟨ct, 0, 0, 0, 0⟩ (ws.filter (fun x => countyOf x = ct))) := by
  intro ws
  induction ws with
  | nil =>
      intro acc _
      simp only [List.foldl_nil, List.filter_nil, pass1Add_nil, List.map_nil, dedupFirst,
        List.append_nil]
      exact (List.map_id' acc).symm
  | cons c ws ih =>
      intro acc hnd
      simp only [List.foldl_cons]
      by_cases hmem : acc.any (fun e => e.county = countyOf c) = true
      · have hstep : bumpTotals acc (countyOf c) c =
            updateRollUp (countyOf c) (fun e => bump1upd e c) acc := by
          unfold bumpTotals
          rw [if_pos hmem]
        have hnd2 : ((updateRollUp (countyOf c) (fun e => bump1upd e c) acc).map
            (·.county)).Nodup := by
          rw [updateRollUp_county_map (countyOf c) (fun e => bump1upd e c) (fun e => rfl) acc]
          exact hnd
        rw [hstep, ih _ hnd2, map_pass1_update c ws acc hnd]
        congr 1
        have hfeq : (ws.filter (fun x =>
            !(updateRollUp (countyOf c) (fun e => bump1upd e c) acc).any
              (fun e => e.county = countyOf x))) =
            ws.filter (fun x => !acc.any (fun e => e.county = countyOf x)) :=
          List.filter_congr (fun x _ => by
            rw [updateRollUp_any (countyOf c) (fun e => bump1upd e c) (fun e => rfl)
              (countyOf x) acc])
        rw [hfeq]
        have hcons : (c :: ws).filter (fun x => !acc.any (fun e => e.county = countyOf x)) =
            ws.filter (fun x => !acc.any (fun e => e.county = countyOf x)) :=
          List.filter_cons_of_neg (by simp [hmem])
        rw [hcons]
        apply List.map_congr_left
        intro ct hct
        obtain ⟨x, hx, hxc⟩ := List.mem_map.mp (dedupFirst_subset _ _ hct)
        have hxp := List.of_mem_filter hx
        have hne : ¬(countyOf c = ct) := by
          intro hcontra
          rw [← hxc] at hcontra
          rw [← hcontra] at hxp
          simp [hmem] at hxp
        rw [List.filter_cons_of_neg (by simpa using hne)]
      · have hmem' : acc.any (fun e => e.county = countyOf c) = false := by
          rwa [Bool.not_eq_true] at hmem
        have hstep : bumpTotals acc (countyOf c) c =
            acc ++ [bump1upd ⟨countyOf c, 0, 0, 0, 0⟩ c] := by
          unfold bumpTotals
          rw [if_neg hmem]
          exact updateRollUp_append_not_mem (countyOf c) (fun e => bump1upd e c) acc
            ⟨countyOf c, 0, 0, 0, 0⟩ hmem' rfl
        have hnotmem : (countyOf c) ∉ acc.map (·.county) := by
          intro hin
          obtain ⟨e, he, hec⟩ := List.mem_map.mp hin
          have : acc.any (fun e => e.county = countyOf c) = true :=
            List.any_eq_true.mpr ⟨e, he, by simp [hec]⟩
          rw [this] at hmem'
          cases hmem'
        have hnd2 : (((acc ++ [bump1upd ⟨countyOf c, 0, 0, 0, 0⟩ c]).map (·.county)).Nodup) := by
          rw [List.map_append]
          refine List.Nodup.append hnd (by simp) ?_
          intro a ha hb
          simp only [List.map_cons, List.map_nil, List.mem_singleton] at hb
          rw [hb] at ha
          exact hnotmem ha
        rw [hstep, ih _ hnd2]
        have hfilterc : (c :: ws).filter (fun x => !acc.any (fun e => e.county = countyOf x)) =
            c :: ws.filter (fun x => !acc.any (fun e => e.county = countyOf x)) :=
          List.filter_cons_of_pos (by simp [hmem'])
        rw [hfilterc, List.map_cons, dedupFirst, List.map_cons, List.map_append]
        rw [List.append_assoc]
        congr 1
        · apply List.map_congr_left
          intro e he
          have hene : ¬(countyOf c = e.county) := by
            intro hcontra
            exact hnotmem (hcontra ▸ List.mem_map_of_mem (·.county) he)
          rw [List.filter_cons_of_neg (by simpa using hene)]
        · simp only [List.map_cons, List.map_nil, List.singleton_append, List.cons.injEq]
          constructor
          · show pass1Add (bump1upd ⟨countyOf c, 0, 0, 0, 0⟩ c)
                (ws.filter (fun x => countyOf x = countyOf c)) = _
            rw [List.filter_cons_of_pos (by simp), pass1Add_cons]
          · have hpred : (ws.filter (fun x =>
                !(acc ++ [bump1upd ⟨countyOf c, 0, 0, 0, 0⟩ c]).any
                  (fun e => e.county = countyOf x))) =
                ws.filter (fun x =>
                  (!acc.any (fun e => e.county = countyOf x)) && !(countyOf x = countyOf c)) :=
              List.filter_congr (fun x _ => by
                simp only [List.any_append, List.any_cons, List.any_nil, Bool.or_false,
                  Bool.not_or]
                have : (bump1upd ⟨countyOf c, 0, 0, 0, 0⟩ c).county = countyOf c := rfl
                rw [this]
                simp [eq_comm])
            rw [hpred, map_countyOf_filter_and]
            have hded : ((ws.filter (fun x =>
                !acc.any (fun e => e.county = countyOf x))).map countyOf).filter
                  (fun y => !(y = countyOf c)) =
                ((ws.filter (fun x =>
                  !acc.any (fun e => e.county = countyOf x))).map countyOf).filter
                  (fun y => y ≠ countyOf c) :=
              List.filter_congr (fun y _ => by simp)
            rw [hded]
            apply List.map_congr_left
            intro ct hct
            have hmemded := dedupFirst_subset _ _ hct
            have hctne : ¬(countyOf c = ct) := by
              have := List.of_mem_filter hmemded
              simp only [ne_eq, decide_not, Bool.not_eq_true', decide_eq_false_iff_not] at this
              exact fun hcontra => this hcontra.symm
            rw [List.filter_cons_of_neg (by simpa using hctne)]

lemma lexCmp_swap : ∀ a b : List Char, lexCmp b a = (lexCmp a b).swap := by
  intro a
  induction a with
  | nil => intro b; cases b <;> rfl
  | cons x xs ih =>
      intro b
      cases b with
      | nil => rfl
      | cons y ys =>
          show lexCmp (y :: ys) (x :: xs) = (lexCmp (x :: xs) (y :: ys)).swap
          unfold lexCmp
          by_cases h1 : x.toNat < y.toNat
          · rw [if_neg (by omega), if_pos (by omega), if_pos h1]
            rfl
          · by_cases h2 : y.toNat < x.toNat
            · rw [if_pos h2, if_neg h1, if_pos h2]
              rfl
            · rw [if_neg h2, if_neg (by omega), if_neg h1, if_neg (by omega)]
              exact ih ys

lemma lexCmp_eq_iff : ∀ a b : List Char, lexCmp a b = .eq ↔ a = b := by
  intro a
  induction a with
  | nil =>
      intro b
      cases b <;> simp [lexCmp]
  | cons x xs ih =>
      intro b
      cases b with
      | nil => simp [lexCmp]
      | cons y ys =>
          unfold lexCmp
          by_cases h1 : x.toNat < y.toNat
          · rw [if_pos h1]
            simp only [List.cons.injEq]
            constructor
            · intro h; cases h
            · rintro ⟨h, _⟩
              exact absurd h1 (by simp [h])
          · by_cases h2 : y.toNat < x.toNat
            · rw [if_neg h1, if_pos h2]
              simp only [List.cons.injEq]
              constructor
              · intro h; cases h
              · rintro ⟨h, _⟩
                exact absurd h2 (by simp [h])
            · rw [if_neg h1, if_neg h2]
              have hxy : x = y := by
                rw [← Char.ofNat_toNat x, ← Char.ofNat_toNat y,
                  show x.toNat = y.toNat by omega]
              rw [ih ys]
              simp [hxy]

lemma lexCmp_lt_trans : ∀ a b c : List Char,
    lexCmp a b = .lt → lexCmp b c = .lt → lexCmp a c = .lt := by
  intro a
  induction a with
  | nil =>
      intro b c hab hbc
      cases c with
      | nil =>
          cases b with
          | nil => cases hab
          | cons y ys => cases hbc
      | cons z zs => rfl
  | cons x xs ih =>
      intro b c hab hbc
      cases b with
      | nil => cases hab
      | cons y ys =>
          cases c with
          | nil => cases hbc
          | cons z zs =>
              unfold lexCmp at hab hbc ⊢
              by_cases h1 : x.toNat < y.toNat
              · by_cases h2 : y.toNat < z.toNat
                · rw [if_pos (by omega)]
                · rw [if_neg h2] at hbc
                  by_cases h3 : z.toNat < y.toNat
                  · rw [if_pos h3] at hbc
                    cases hbc
                  · rw [if_pos (by omega)]
              · by_cases h1b : y.toNat < x.toNat
                · rw [if_neg h1, if_pos h1b] at hab
                  cases hab
                · have hxy : x.toNat = y.toNat := by omega
                  by_cases h2 : y.toNat < z.toNat
                  · rw [if_pos (by omega)]
                  · by_cases h2b : z.toNat < y.toNat
                    · rw [if_neg h2, if_pos h2b] at hbc
                      cases hbc
                    · rw [if_neg h1, if_neg h1b] at hab
                      rw [if_neg h2, if_neg h2b] at hbc
                      rw [if_neg (by omega), if_neg (by omega)]
                      exact ih ys zs hab hbc

lemma lexCmp_not_gt_iff (a b : List Char) :
    lexCmp a b ≠ .gt ↔ lexCmp a b = .lt ∨ a = b := by
  cases h : lexCmp a b with
  | lt => simp
  | eq => simp [← lexCmp_eq_iff, h]
  | gt =>
      simp only [ne_eq, not_true_eq_false, false_iff, not_or]
      refine ⟨by simp [h], ?_⟩
      intro hab
      rw [hab] at h
      rw [lexCmp_eq_iff b b |>.mpr rfl] at h
      cases h

lemma lexCmp_not_gt_trans (a b c : List Char) (hab : lexCmp a b ≠ .gt)
    (hbc : lexCmp b c ≠ .gt) : lexCmp a c ≠ .gt := by
  rw [lexCmp_not_gt_iff] at hab hbc ⊢
  rcases hab with hab | hab
  · rcases hbc with hbc | hbc
    · exact Or.inl (lexCmp_lt_trans a b c hab hbc)
    · exact Or.inl (hbc ▸ hab)
  · rcases hbc with hbc | hbc
    · exact Or.inl (hab ▸ hbc)
    · exact Or.inr (hab.trans hbc)

lemma localeCmp_not_gt_trans (a b c : String) (hab : localeCmp a b ≠ .gt)
    (hbc : localeCmp b c ≠ .gt) : localeCmp a c ≠ .gt := by
  unfold localeCmp at hab hbc ⊢
  cases h1 : lexCmp (jsLowerL a.data) (jsLowerL b.data) with
  | gt => rw [h1] at hab; exact absurd rfl hab
  | lt =>
      rw [h1] at hab
      cases h2 : lexCmp (jsLowerL b.data) (jsLowerL c.data) with
      | gt => rw [h2] at hbc; exact absurd rfl hbc
      | lt =>
          rw [lexCmp_lt_trans _ _ _ h1 h2]
          simp
      | eq =>
          have hbceq := (lexCmp_eq_iff _ _).mp h2
          rw [← hbceq, h1]
          simp
  | eq =>
      have habeq := (lexCmp_eq_iff _ _).mp h1
      rw [h1] at hab
      cases h2 : lexCmp (jsLowerL b.data) (jsLowerL c.data) with
      | gt => rw [h2] at hbc; exact absurd rfl hbc
      | lt =>
          rw [habeq, h2]
          simp
      | eq =>
          have hbceq := (lexCmp_eq_iff _ _).mp h2
          rw [h2] at hbc
          rw [habeq, h2]
          intro hcon
          exact lexCmp_not_gt_trans a.data b.data c.data hab hbc hcon

lemma localeCmp_gt_asymm (a b : String) (h : localeCmp a b = .gt) :
    localeCmp b a ≠ .gt := by
  unfold localeCmp at h ⊢
  have hswap := lexCmp_swap (jsLowerL a.data) (jsLowerL b.data)
  cases h1 : lexCmp (jsLowerL a.data) (jsLowerL b.data) with
  | lt => rw [h1] at h; cases h
  | gt =>
      rw [h1] at hswap
      have hba : lexCmp (jsLowerL b.data) (jsLowerL a.data) = .lt := by rw [hswap]; rfl
      rw [hba]
      simp
  | eq =>
      rw [h1] at hswap h
      have h2 : lexCmp a.data b.data = .gt := h
      have hba : lexCmp (jsLowerL b.data) (jsLowerL a.data) = .eq := by rw [hswap]; rfl
      rw [hba]
      show lexCmp b.data a.data ≠ .gt
      rw [lexCmp_swap a.data b.data, h2]
      simp [Ordering.swap]

lemma mem_insertRollUp (x : FourWeekRollUp) :
    ∀ (l : List FourWeekRollUp) (z : FourWeekRollUp), z ∈ insertRollUp x l → z = x ∨ z ∈ l := by
  intro l
  induction l with
  | nil =>
      intro z hz
      simp [insertRollUp] at hz
      exact Or.inl hz
  | cons y r ih =>
      intro z hz
      unfold insertRollUp at hz
      by_cases hgt : localeCmp x.county y.county = .gt
      · rw [if_pos hgt] at hz
        rcases List.mem_cons.mp hz with h | h
        · exact Or.inr (h ▸ List.mem_cons_self y r)
        · rcases ih z h with h2 | h2
          · exact Or.inl h2
          · exact Or.inr (List.mem_cons_of_mem y h2)
      · rw [if_neg hgt] at hz
        rcases List.mem_cons.mp hz with h | h
        · exact Or.inl h
        · exact Or.inr h

lemma pairwise_insertRollUp (x : FourWeekRollUp) :
    ∀ l : List FourWeekRollUp,
      l.Pairwise (fun a b => localeCmp a.county b.county ≠ .gt) →
      (insertRollUp x l).Pairwise (fun a b => localeCmp a.county b.county ≠ .gt) := by
  intro l
  induction l with
  | nil => intro _; simp [insertRollUp]
  | cons y r ih =>
      intro hl
      rw [List.pairwise_cons] at hl
      unfold insertRollUp
      by_cases hgt : localeCmp x.county y.county = .gt
      · rw [if_pos hgt]
        rw [List.pairwise_cons]
        refine ⟨?_, ih hl.2⟩
        intro z hz
        rcases mem_insertRollUp x r z hz with h | h
        · rw [h]
          exact localeCmp_gt_asymm _ _ hgt
        · exact hl.1 z h
      · rw [if_neg hgt]
        rw [List.pairwise_cons]
        refine ⟨?_, List.pairwise_cons.mpr hl⟩
        intro z hz
        rcases List.mem_cons.mp hz with h | h
        · rw [h]; exact hgt
        · exact localeCmp_not_gt_trans _ _ _ hgt (hl.1 z h)

lemma sortRollUps_pairwise (l : List FourWeekRollUp) :
    (sortRollUps l).Pairwise (fun a b => localeCmp a.county b.county ≠ .gt) := by
  induction l with
  | nil => simp [sortRollUps]
  | cons x r ih =>
      show (insertRollUp x (sortRollUps r)).Pairwise _
      exact pairwise_insertRollUp x (sortRollUps r) ih

lemma rollUpSpecEntry_decomp (win : List ProcessedComplaint) (ct : String) :
    rollUpSpecEntry win ct =
      pass2Add (pass1Add ⟨ct, 0, 0, 0, 0⟩ (win.filter (fun x => countyOf x = ct)))
        ((filterValidComplaints win).filter (fun x => meetsCriteria x && countyOf x = ct)) := by
  unfold rollUpSpecEntry pass1Add pass2Add
  simp

/-- C8 (amended): the four-week roll-up produces, for every distinct county
of the records dated within the window, exactly the row the amended claim
predicts — the total count over all window records of that county, the
total UPB only over its valid (including duplicate) records with a truthy
upb, and the criteria counters over its valid, non-duplicate,
criteria-meeting records — and the rows are sorted alphabetically by
county (the original claim wrongly included invalid records in totalUPB;
see the counterexample). -/
theorem fourWeekRollUp_spec (now : Int) (cs : List ProcessedComplaint) :
    calculateFourWeekRollUp now cs = sortRollUps (rollUpSpecGroups now cs) ∧
    (calculateFourWeekRollUp now cs).Pairwise
      (fun a b => localeCmp a.county b.county ≠ .gt) := by
  constructor
  · show sortRollUps _ = _
    congr 1
    have hm1 := pass1_fold_char (cs.filter (inFourWeekWindow now)) [] (by simp)
    simp only [List.map_nil, List.nil_append] at hm1
    have hfilt : (cs.filter (inFourWeekWindow now)).filter
        (fun c => !(List.nil (α := FourWeekRollUp)).any (fun e => e.county = countyOf c)) =
        cs.filter (inFourWeekWindow now) := by
      apply List.filter_eq_self.mpr
      intro a _
      rfl
    rw [hfilt] at hm1
    rw [hm1]
    have hnodup : (((dedupFirst ((cs.filter (inFourWeekWindow now)).map countyOf)).map
        (fun ct => pass1Add ⟨ct, 0, 0, 0, 0⟩
          ((cs.filter (inFourWeekWindow now)).filter (fun x => countyOf x = ct)))).map
        (·.county)).Nodup := by
      rw [List.map_map]
      have : ((·.county) ∘ fun ct => pass1Add ⟨ct, 0, 0, 0, 0⟩
          ((cs.filter (inFourWeekWindow now)).filter (fun x => countyOf x = ct))) = id := by
        funext ct
        rfl
      rw [this, List.map_id]
      exact dedupFirst_nodup _
    rw [pass2_fold_char _ _ hnodup]
    unfold rollUpSpecGroups
    rw [List.map_map]
    apply List.map_congr_left
    intro ct _
    rw [rollUpSpecEntry_decomp]
    rfl
  · exact sortRollUps_pairwise _

/-- Record used by the C8 counterexample: invalid, inside the window, with
a nonzero upb. -/
def rollUpCexRecord : ProcessedComplaint :=
  { raw := [],
    upb := JsValue.vnum 100,
    complaintDate := JsValue.vdate (some 0),
    isValid := false,
    errors := some ["Missing or empty county"],
    normalizedCounty := "Testcounty",
    normalizedLender := "Testlender",
    isDuplicate := false }

/-- Total UPB of a county as the original claim words it: summed over all
window records of the county, valid or not. -/
def claimFourWeekTotalUPB (now : Int) (cs : List ProcessedComplaint) (ct : String) : ℚ :=
  sumUPB ((cs.filter (inFourWeekWindow now)).filter (fun x => countyOf x = ct))

/-- Counterexample to C8 as stated: for a single invalid window record with
upb 100, the roll-up reports totalUPB 0, while a total over all records
(the original claim) would be 100. -/
theorem fourWeekRollUp_totalUPB_cex :
    (calculateFourWeekRollUp 0 [rollUpCexRecord]).map (·.county) = ["Testcounty"] ∧
    (calculateFourWeekRollUp 0 [rollUpCexRecord]).map (·.totalUPB) = [0] ∧
    claimFourWeekTotalUPB 0 [rollUpCexRecord] "Testcounty" = 100 := by
  refine ⟨by decide, by decide, ?_⟩
  have h2 : claimFourWeekTotalUPB 0 [rollUpCexRecord] "Testcounty" = (0 : ℚ) + 100 := by
    show addUPBVal 0 rollUpCexRecord.upb = (0 : ℚ) + 100
    rw [addUPBVal_eq]
    rfl
  rw [h2]
  norm_num

end Collector
